import Mathlib

/-!
Verification of the polaris portfolio-accounting back office.

The definitions below are a shallow embedding, in Lean, of the Python
source under `backend/app/`.  Decimal values are modelled as rationals
(`ℚ`); Python `Decimal.quantize(Decimal("0.01"), ROUND_HALF_UP)` is
modelled exactly (half-up, ties away from zero); database tables are
modelled as association lists; fallible code returns `Except`.
-/

namespace Polaris

/-- `Decimal.quantize(Decimal("0.01"), rounding=ROUND_HALF_UP)`:
round to 2 decimal places, ties away from zero
(`_round_money` in `api/staging.py`). -/
def roundMoney (v : ℚ) : ℚ :=
  if 0 ≤ v then ((⌊v * 100 + 1/2⌋ : ℤ) : ℚ) / 100
  else -(((⌊(-v) * 100 + 1/2⌋ : ℤ) : ℚ) / 100)

/-- Python `max(range(len(l)), key=lambda idx: abs(l[idx]))`:
the first index of `l` holding a value of maximal absolute value.
Python `max` keeps the earlier element unless a strictly greater key
appears, which the fold reproduces. -/
def maxAbsIndex (l : List ℚ) : ℕ :=
  (List.range l.length).foldl
    (fun best idx => if |l.getD idx 0| > |l.getD best 0| then idx else best) 0

/-- `_compute_block_and_allocation_amounts` in `api/staging.py`:
given the absolute allocation quantities and the price, return
`(block_amount_qc, allocation_amounts_qc, rounding_adjustment_index)`.
The same computation appears inline in `create_deal_staging_transactions`. -/
def computeBlockAndAllocationAmounts (abs_quantities : List ℚ) (price : ℚ) :
    ℚ × List ℚ × Option ℕ :=
  if abs_quantities = [] then (0, [], none)
  else
    let total_abs_qty := abs_quantities.sum
    let block_amount_qc := roundMoney (total_abs_qty * price)
    let allocation_raw_amounts := abs_quantities.map (fun qty => qty * price)
    let allocation_amounts_qc := allocation_raw_amounts.map roundMoney
    let residual_qc := block_amount_qc - allocation_amounts_qc.sum
    if residual_qc = 0 then (block_amount_qc, allocation_amounts_qc, none)
    else
      let i := maxAbsIndex allocation_raw_amounts
      (block_amount_qc,
       allocation_amounts_qc.set i (allocation_amounts_qc.getD i 0 + residual_qc),
       some i)

/-- The local `allocation_raw_amounts` of the deal creation/adjustment code. -/
def rawAmounts (abs_quantities : List ℚ) (price : ℚ) : List ℚ :=
  abs_quantities.map (fun qty => qty * price)

/-- The local `residual_qc`: block amount minus the sum of the independently
rounded allocation amounts. -/
def residualQc (abs_quantities : List ℚ) (price : ℚ) : ℚ :=
  roundMoney (abs_quantities.sum * price) -
    ((rawAmounts abs_quantities price).map roundMoney).sum

/-- The `is_rounding_adjustment` values passed to the N allocation inserts:
allocation `idx` gets `rounding_adjustment_index == idx`. -/
def roundingAdjustmentFlags (n : ℕ) (idx? : Option ℕ) : List Bool :=
  (List.range n).map (fun i => idx? == some i)

example : roundMoney (333/10) = 333/10 := by norm_num [roundMoney]
example : roundMoney (100025/1000) = 10003/100 := by norm_num [roundMoney]
example : computeBlockAndAllocationAmounts [1, 1, 1] (10001/100) =
    (30003/100, [10001/100, 10001/100, 10001/100], none) := by
  have h : ¬([1, 1, 1] : List ℚ) = [] := by simp
  norm_num [computeBlockAndAllocationAmounts, roundMoney, maxAbsIndex, h]

theorem count_true_map {α : Type} (f : α → Bool) (l : List α) :
    (l.map f).count true = l.countP f := by
  induction l with
  | nil => simp
  | cons a l ih =>
    simp only [List.map_cons, List.count_cons, List.countP_cons, ih]
    cases h : f a <;> simp [h]

theorem countP_beq_range (m n : ℕ) (h : m < n) :
    (List.range n).countP (fun i => (some m : Option ℕ) == some i) = 1 := by
  have he : (fun i => (some m : Option ℕ) == some i) = (fun i => i == m) := by
    funext i
    simp [BEq.comm, eq_comm]
  rw [he]
  have := List.count_eq_one_of_mem (List.nodup_range n) (List.mem_range.mpr h)
  simpa [List.count] using this

theorem sum_set_eq (l : List ℚ) (i : ℕ) (a : ℚ) (h : i < l.length) :
    (l.set i a).sum = l.sum - l.getD i 0 + a := by
  induction l generalizing i with
  | nil => simp at h
  | cons x xs ih =>
    cases i with
    | zero =>
      simp
      ring
    | succ n =>
      have h' : n < xs.length := by simpa using h
      have h1 : ((x :: xs).set (n+1) a).sum = x + (xs.set n a).sum := by simp
      have h2 : (x :: xs).getD (n+1) 0 = xs.getD n 0 := by simp
      rw [h1, ih n h', List.sum_cons, h2]
      ring

theorem foldl_choice_mem (g : ℕ → ℚ) (is : List ℕ) (b : ℕ) :
    (is.foldl (fun best idx => if g idx > g best then idx else best) b) ∈ b :: is := by
  induction is generalizing b with
  | nil => simp
  | cons i rest ih =>
    simp only [List.foldl_cons]
    rcases List.mem_cons.mp (ih (if g i > g b then i else b)) with h | h
    · rw [h]
      by_cases hc : g i > g b
      · rw [if_pos hc]
        exact List.mem_cons_of_mem _ (List.mem_cons_self _ _)
      · rw [if_neg hc]
        exact List.mem_cons_self _ _
    · exact List.mem_cons_of_mem _ (List.mem_cons_of_mem _ h)

theorem foldl_choice_maximal (g : ℕ → ℚ) (is : List ℕ) (b : ℕ) :
    ∀ j ∈ b :: is, g j ≤ g (is.foldl (fun best idx => if g idx > g best then idx else best) b) := by
  induction is generalizing b with
  | nil =>
    intro j hj
    have hjb : j = b := by simpa using hj
    rw [hjb]
    exact le_refl _
  | cons i rest ih =>
    intro j hj
    simp only [List.foldl_cons]
    have hb' : g b ≤ g (if g i > g b then i else b) := by
      by_cases hc : g i > g b
      · rw [if_pos hc]
        exact le_of_lt hc
      · rw [if_neg hc]
    have hi' : g i ≤ g (if g i > g b then i else b) := by
      by_cases hc : g i > g b
      · rw [if_pos hc]
      · rw [if_neg hc]
        exact le_of_not_lt hc
    have hstep := ih (if g i > g b then i else b)
    have hres : g (if g i > g b then i else b) ≤
        g (rest.foldl (fun best idx => if g idx > g best then idx else best)
            (if g i > g b then i else b)) :=
      hstep _ (List.mem_cons_self _ _)
    rcases List.mem_cons.mp hj with h | h
    · exact le_trans (by rw [h]; exact hb') hres
    · rcases List.mem_cons.mp h with h2 | h2
      · exact le_trans (by rw [h2]; exact hi') hres
      · exact hstep j (List.mem_cons_of_mem _ h2)

theorem maxAbsIndex_lt (l : List ℚ) (h : l ≠ []) : maxAbsIndex l < l.length := by
  have hm := foldl_choice_mem (fun idx => |l.getD idx 0|) (List.range l.length) 0
  rcases List.mem_cons.mp hm with h0 | hmem
  · have h0' : maxAbsIndex l = 0 := h0
    rw [h0']
    exact List.length_pos.mpr h
  · exact List.mem_range.mp hmem

theorem maxAbsIndex_maximal (l : List ℚ) (j : ℕ) (hj : j < l.length) :
    |l.getD j 0| ≤ |l.getD (maxAbsIndex l) 0| :=
  foldl_choice_maximal (fun idx => |l.getD idx 0|) (List.range l.length) 0 j
    (List.mem_cons_of_mem _ (List.mem_range.mpr hj))

/-- C3: for every deal creation with non-empty allocations, the block amount is
`|total qty| × price` rounded half-up to 2dp (the total being the sum of the
absolute allocation quantities), each allocation amount is its `|qty| × price`
rounded independently except that the allocation with the largest `|raw amount|`
absorbs the signed residual, the allocation amounts sum exactly to the block
amount, and exactly one allocation carries `is_rounding_adjustment = true` when
the residual is nonzero (none otherwise). -/
theorem claim_C3_deal_rounding (qs : List ℚ) (p : ℚ) (h : qs ≠ []) :
    (computeBlockAndAllocationAmounts qs p).1 = roundMoney (qs.sum * p)
    ∧ (computeBlockAndAllocationAmounts qs p).2.1.sum
        = (computeBlockAndAllocationAmounts qs p).1
    ∧ (residualQc qs p = 0 →
        (computeBlockAndAllocationAmounts qs p).2.1 = (rawAmounts qs p).map roundMoney
        ∧ (computeBlockAndAllocationAmounts qs p).2.2 = none)
    ∧ (residualQc qs p ≠ 0 →
        (computeBlockAndAllocationAmounts qs p).2.2 = some (maxAbsIndex (rawAmounts qs p))
        ∧ (computeBlockAndAllocationAmounts qs p).2.1
            = ((rawAmounts qs p).map roundMoney).set (maxAbsIndex (rawAmounts qs p))
                (((rawAmounts qs p).map roundMoney).getD (maxAbsIndex (rawAmounts qs p)) 0
                  + residualQc qs p)
        ∧ ∀ j < qs.length,
            |(rawAmounts qs p).getD j 0|
              ≤ |(rawAmounts qs p).getD (maxAbsIndex (rawAmounts qs p)) 0|)
    ∧ (roundingAdjustmentFlags qs.length (computeBlockAndAllocationAmounts qs p).2.2).count true
        = if residualQc qs p = 0 then 0 else 1 := by
  have hraw_len : (rawAmounts qs p).length = qs.length := by simp [rawAmounts]
  have hlt : maxAbsIndex (rawAmounts qs p) < qs.length := by
    have : rawAmounts qs p ≠ [] := by
      simpa [rawAmounts] using h
    simpa [hraw_len] using maxAbsIndex_lt (rawAmounts qs p) this
  have hunfold : computeBlockAndAllocationAmounts qs p =
      (if residualQc qs p = 0 then
        (roundMoney (qs.sum * p), (rawAmounts qs p).map roundMoney, none)
      else
        (roundMoney (qs.sum * p),
          ((rawAmounts qs p).map roundMoney).set (maxAbsIndex (rawAmounts qs p))
            (((rawAmounts qs p).map roundMoney).getD (maxAbsIndex (rawAmounts qs p)) 0
              + residualQc qs p),
          some (maxAbsIndex (rawAmounts qs p)))) := by
    simp only [computeBlockAndAllocationAmounts, residualQc, rawAmounts, if_neg h]
  by_cases hres : residualQc qs p = 0
  · rw [hunfold, if_pos hres]
    refine ⟨rfl, ?_, fun _ => ⟨rfl, rfl⟩, fun hc => absurd hres hc, ?_⟩
    · have : ((rawAmounts qs p).map roundMoney).sum = roundMoney (qs.sum * p) := by
        have := hres
        simp only [residualQc] at this
        linarith
      simpa using this
    · simp [roundingAdjustmentFlags, hres, List.count_eq_zero]
  · rw [hunfold, if_neg hres]
    have hset_len : maxAbsIndex (rawAmounts qs p) < ((rawAmounts qs p).map roundMoney).length := by
      simpa [hraw_len] using hlt
    refine ⟨rfl, ?_, fun hc => absurd hc hres, fun _ => ⟨rfl, rfl, ?_⟩, ?_⟩
    · rw [sum_set_eq _ _ _ hset_len]
      simp only [residualQc]
      ring
    · intro j hjlt
      exact maxAbsIndex_maximal (rawAmounts qs p) j (by simpa [hraw_len] using hjlt)
    · simp only [if_neg hres, roundingAdjustmentFlags]
      rw [count_true_map]
      exact countP_beq_range _ _ hlt

theorem claim_C3_deal_rounding_witness :
    ([2/5, 3/10, 3/10] : List ℚ) ≠ []
    ∧ (computeBlockAndAllocationAmounts [2/5, 3/10, 3/10] (33335/1000)).2.1.sum
        = (computeBlockAndAllocationAmounts [2/5, 3/10, 3/10] (33335/1000)).1 :=
  ⟨by simp, (claim_C3_deal_rounding [2/5, 3/10, 3/10] (33335/1000) (by simp)).2.1⟩

/-- A row of the `pending_trade` table (`db/tables.py`; called `txn_staging`
inside the activity code).  Dates are abstract day numbers. -/
structure PendingTrade where
  level : String
  deal_block_id : Option ℕ
  deal_allocation_id : Option ℕ
  portfolio_id : Option ℕ
  instrument_id : ℕ
  trade_date : ℕ
  settle_date : Option ℕ
  quantity : ℚ
  price : ℚ
  quote_currency : String
  report_currency : String
  qc_gross_amount : Option ℚ
  rc_gross_amount : Option ℚ
  status : String
  lifecycle : String
  source_system : Option String
  entry_version : ℕ
deriving DecidableEq, Repr

/-- The pending-trade table: staging id → row. -/
abbrev StagingTable := List (ℕ × PendingTrade)

def stagingLookup (l : StagingTable) (sid : ℕ) : Option PendingTrade :=
  (l.find? (fun e => e.1 == sid)).map (fun e => e.2)

def stagingUpdate (l : StagingTable) (sid : ℕ) (row : PendingTrade) : StagingTable :=
  l.map (fun e => if e.1 == sid then (sid, row) else e)

/-- The error taxonomy of `state_machine.py`: `KeyError("staging_not_found")`
raised by `read_staging_status`, and the two `InvalidTransition` messages. -/
inductive TransitionError where
  | staging_not_found : TransitionError
  | lifecycle_not_active (lifecycle : String) : TransitionError
  | status_mismatch (current expected : String) : TransitionError
deriving DecidableEq, Repr

/-- `advance_status` in `state_machine.py`: a conditional update requiring
`status = from_status AND lifecycle = 'active'` that bumps `entry_version`;
on zero rows updated the row is re-read and classified. -/
def advance_status (l : StagingTable) (sid : ℕ) (from_status to_status : String) :
    Except TransitionError StagingTable :=
  match stagingLookup l sid with
  | none => .error .staging_not_found
  | some row =>
    if row.status = from_status ∧ row.lifecycle = "active" then
      .ok (stagingUpdate l sid
        { row with status := to_status, entry_version := row.entry_version + 1 })
    else
      if row.lifecycle ≠ "active" then .error (.lifecycle_not_active row.lifecycle)
      else if row.status = to_status then .ok l
      else .error (.status_mismatch row.status from_status)

theorem stagingLookup_cons (x : ℕ × PendingTrade) (xs : StagingTable) (sid : ℕ) :
    stagingLookup (x :: xs) sid =
      if x.1 = sid then some x.2 else stagingLookup xs sid := by
  by_cases h : x.1 = sid
  · simp [stagingLookup, List.find?_cons, h]
  · simp [stagingLookup, List.find?_cons, h]

theorem stagingUpdate_cons (x : ℕ × PendingTrade) (xs : StagingTable) (sid : ℕ)
    (row : PendingTrade) :
    stagingUpdate (x :: xs) sid row =
      (if x.1 = sid then (sid, row) else x) :: stagingUpdate xs sid row := by
  by_cases h : x.1 = sid <;> simp [stagingUpdate, h]

theorem stagingLookup_update_self (l : StagingTable) (sid : ℕ) (row : PendingTrade)
    (h : (stagingLookup l sid).isSome) :
    stagingLookup (stagingUpdate l sid row) sid = some row := by
  induction l with
  | nil => simp [stagingLookup] at h
  | cons e rest ih =>
    rw [stagingUpdate_cons]
    by_cases hc : e.1 = sid
    · rw [if_pos hc, stagingLookup_cons]
      simp
    · rw [if_neg hc, stagingLookup_cons, if_neg hc]
      rw [stagingLookup_cons, if_neg hc] at h
      exact ih h

theorem stagingLookup_update_other (l : StagingTable) (sid other : ℕ) (row : PendingTrade)
    (h : other ≠ sid) :
    stagingLookup (stagingUpdate l sid row) other = stagingLookup l other := by
  induction l with
  | nil => rfl
  | cons e rest ih =>
    rw [stagingUpdate_cons]
    by_cases hc : e.1 = sid
    · rw [if_pos hc, stagingLookup_cons, stagingLookup_cons e rest other]
      have h1 : ¬((sid, row).1 = other) := by simpa using Ne.symm h
      have h2 : ¬(e.1 = other) := by
        rw [hc]
        simpa using Ne.symm h
      rw [if_neg h1, if_neg h2]
      exact ih
    · rw [if_neg hc, stagingLookup_cons, stagingLookup_cons e rest other]
      by_cases he : e.1 = other
      · rw [if_pos he, if_pos he]
      · rw [if_neg he, if_neg he]
        exact ih

/-- C4: `advance(staging_id, from, to)` on an existing row: if the row has
`status = from` and `lifecycle = active` the status becomes `to` and
`entry_version` is incremented by one (all other fields kept); otherwise no
row changes and, following the re-read, a non-active lifecycle raises
`InvalidTransition(lifecycle_not_active)`, `status = to` is a no-op success,
and any other status raises `InvalidTransition(status_mismatch)`. -/
theorem claim_C4_state_machine_guard (l : StagingTable) (sid : ℕ)
    (from_status to_status : String) (row : PendingTrade)
    (hrow : stagingLookup l sid = some row) :
    (row.status = from_status ∧ row.lifecycle = "active" →
      advance_status l sid from_status to_status =
        .ok (stagingUpdate l sid
          { row with status := to_status, entry_version := row.entry_version + 1 })
      ∧ stagingLookup (stagingUpdate l sid
          { row with status := to_status, entry_version := row.entry_version + 1 }) sid =
          some { row with status := to_status, entry_version := row.entry_version + 1 }
      ∧ ∀ other, other ≠ sid →
          stagingLookup (stagingUpdate l sid
            { row with status := to_status, entry_version := row.entry_version + 1 }) other =
            stagingLookup l other)
    ∧ (¬(row.status = from_status ∧ row.lifecycle = "active") →
        (row.lifecycle ≠ "active" →
          advance_status l sid from_status to_status =
            .error (.lifecycle_not_active row.lifecycle))
        ∧ (row.lifecycle = "active" → row.status = to_status →
          advance_status l sid from_status to_status = .ok l)
        ∧ (row.lifecycle = "active" → row.status ≠ to_status →
          advance_status l sid from_status to_status =
            .error (.status_mismatch row.status from_status))) := by
  constructor
  · intro hcond
    refine ⟨?_, ?_, ?_⟩
    · simp [advance_status, hrow, hcond]
    · exact stagingLookup_update_self l sid _ (by simp [hrow])
    · intro other hother
      exact stagingLookup_update_other l sid other _ hother
  · intro hcond
    refine ⟨?_, ?_, ?_⟩
    · intro hlc
      simp [advance_status, hrow, hcond, hlc]
    · intro hlc hst
      have hsf : row.status ≠ from_status := fun hh => hcond ⟨hh, hlc⟩
      have htf : to_status ≠ from_status := hst ▸ hsf
      simp [advance_status, hrow, hsf, hlc, hst, htf]
    · intro hlc hst
      have hsf : row.status ≠ from_status := fun hh => hcond ⟨hh, hlc⟩
      simp [advance_status, hrow, hsf, hlc, hst]

/-- The `position_current` table, keyed by `(portfolio_id, instrument_id)`;
only the `quantity` column is modelled (cost basis, version uuid and
timestamps carry no arithmetic content). -/
abbrev PositionTable := List ((ℕ × ℕ) × ℚ)

def posLookup (ps : PositionTable) (pid iid : ℕ) : Option ℚ :=
  (ps.find? (fun e => e.1 == (pid, iid))).map (fun e => e.2)

/-- The upsert of `position_current` in `position_activity`
(`temporal/activities.py`): insert the row with `quantity = q` on first
write, and on conflict of `(portfolio_id, instrument_id)` set
`quantity := quantity + q`. -/
def posUpsert (ps : PositionTable) (pid iid : ℕ) (q : ℚ) : PositionTable :=
  match ps with
  | [] => [((pid, iid), q)]
  | e :: rest =>
    if e.1 = (pid, iid) then (e.1, e.2 + q) :: rest
    else e :: posUpsert rest pid iid q

theorem posLookup_upsert_self (ps : PositionTable) (pid iid : ℕ) (q : ℚ) :
    posLookup (posUpsert ps pid iid q) pid iid =
      some ((posLookup ps pid iid).getD 0 + q) := by
  induction ps with
  | nil => simp [posUpsert, posLookup]
  | cons e rest ih =>
    by_cases hc : e.1 = (pid, iid)
    · simp [posUpsert, posLookup, List.find?_cons, hc]
    · have hc' : (e.1 == (pid, iid)) = false := by simp [hc]
      simp only [posUpsert, if_neg hc]
      simp only [posLookup, List.find?_cons, hc'] at ih ⊢
      exact ih

theorem posLookup_foldl_upsert (qs : List ℚ) (pid iid : ℕ) (ps : PositionTable) (a : ℚ)
    (h : posLookup ps pid iid = some a) :
    posLookup (qs.foldl (fun acc q => posUpsert acc pid iid q) ps) pid iid =
      some (a + qs.sum) := by
  induction qs generalizing ps a with
  | nil => simpa using h
  | cons q rest ih =>
    simp only [List.foldl_cons, List.sum_cons]
    have hstep := posLookup_upsert_self ps pid iid q
    rw [h] at hstep
    have := ih (posUpsert ps pid iid q) (a + q) (by simpa using hstep)
    rw [this]
    ring_nf

/-- A response payload: a flat JSON object, all values serialized as
strings (the activities return dicts of strings). -/
abbrev Payload := List (String × String)

structure IdemKey where
  scope : String
  key : String
deriving DecidableEq, Repr

/-- `idempotency_record` (`idempotency.py`): `(scope, key)` unique, with an
optional cached `response`.  The debugging `request_hash` column is not
modelled. -/
abbrev IdemTable := List (IdemKey × Option Payload)

/-- `get_idempotent_response`: the stored response for `(scope, key)` if the
row exists and carries one (Python returns the nullable column and callers
test it for truthiness). -/
def get_idempotent_response (m : IdemTable) (scope key : String) : Option Payload :=
  ((m.find? (fun e => e.1 == (⟨scope, key⟩ : IdemKey))).map (fun e => e.2)).join

/-- `claim_idempotency`: `INSERT ... ON CONFLICT (scope, key) DO NOTHING`;
returns whether this caller inserted the row. -/
def claim_idempotency (m : IdemTable) (scope key : String) : Bool × IdemTable :=
  if (m.find? (fun e => e.1 == (⟨scope, key⟩ : IdemKey))).isSome then (false, m)
  else (true, ((⟨scope, key⟩ : IdemKey), none) :: m)

/-- `store_idempotent_response`: upsert of the response body on
`(scope, key)`. -/
def store_idempotent_response (m : IdemTable) (scope key : String) (resp : Payload) :
    IdemTable :=
  match m with
  | [] => [((⟨scope, key⟩ : IdemKey), some resp)]
  | e :: rest =>
    if e.1 = (⟨scope, key⟩ : IdemKey) then (e.1, some resp) :: rest
    else e :: store_idempotent_response rest scope key resp

theorem get_store_self (m : IdemTable) (scope key : String) (resp : Payload) :
    get_idempotent_response (store_idempotent_response m scope key resp) scope key =
      some resp := by
  induction m with
  | nil => simp [store_idempotent_response, get_idempotent_response]
  | cons e rest ih =>
    by_cases hc : e.1 = (⟨scope, key⟩ : IdemKey)
    · simp [store_idempotent_response, get_idempotent_response, List.find?_cons, hc]
    · have hc' : (e.1 == (⟨scope, key⟩ : IdemKey)) = false := by simp [hc]
      simp only [store_idempotent_response, if_neg hc]
      simp only [get_idempotent_response, List.find?_cons, hc'] at ih ⊢
      exact ih

/-- Journal-entry header (`acct_transaction` in `db/tables.py`).  `posted_at`
and `created_at` are not modelled; the transaction list is kept most recent
first, so list order encodes the `created_at DESC` ordering. -/
structure AcctTransaction where
  id : ℕ
  staging_id : Option ℕ
  deal_block_id : Option ℕ
  deal_allocation_id : Option ℕ
  effective_date : ℕ
  description : String
  trade_type : String
  entry_role : String
  reversal_of_id : Option ℕ
  replacement_of_id : Option ℕ
deriving DecidableEq, Repr

/-- Journal-entry line (`acct_entry`). -/
structure AcctEntry where
  acct_transaction_id : ℕ
  portfolio_id : Option ℕ
  instrument_id : ℕ
  account_code : String
  drcr : String
  quantity : Option ℚ
  amount : ℚ
  currency : String
deriving DecidableEq, Repr

/-- The write-through position cache (`redis_cache.set_position`); only the
quantity payload field carries arithmetic content. -/
abbrev CacheTable := List ((ℕ × ℕ) × ℚ)

def cacheSet (c : CacheTable) (pid iid : ℕ) (q : ℚ) : CacheTable :=
  match c with
  | [] => [((pid, iid), q)]
  | e :: rest => if e.1 = (pid, iid) then (e.1, q) :: rest else e :: cacheSet rest pid iid q

/-- The database + cache state the trade activities act on. -/
structure DBState where
  stagings : StagingTable
  transactions : List AcctTransaction
  entries : List AcctEntry
  positions : PositionTable
  idem : IdemTable
  cache : CacheTable
  next_txn_id : ℕ
deriving DecidableEq, Repr

/-- `_trade_type_from_quantity`: `BUY` if quantity ≥ 0 else `SELL`. -/
def trade_type_from_quantity (quantity : ℚ) : String :=
  if quantity ≥ 0 then "BUY" else "SELL"

/-- `_entry_role_from_source_system`. -/
def entry_role_from_source_system (source_system : Option String) : String :=
  if source_system = some "modify_reversal" ∨ source_system = some "delete_reversal" then
    "reversal"
  else if source_system = some "modify_replacement" then "replacement"
  else "normal"

/-- `precheck_activity` (`temporal/activities.py`). -/
def precheck_activity (s : DBState) (sid : ℕ) : Except String (Payload × DBState) :=
  let scope := "activity:advance_status:" ++ toString sid
  let key := "to:pre_check"
  match get_idempotent_response s.idem scope key with
  | some cached => .ok (cached, s)
  | none =>
    if sid = 0 then .error "staging_id_invalid"
    else
      match stagingLookup s.stagings sid with
      | none => .error "staging_not_found"
      | some row =>
        if row.lifecycle ≠ "active" then .error "staging_not_active"
        else if ¬(row.status = "entry" ∨ row.status = "pre_check") then
          .error ("unexpected_status:" ++ row.status)
        else if row.quantity = 0 then .error "quantity_zero"
        else if row.price ≤ 0 then .error "price_invalid"
        else
          match (if row.status = "entry" then
                  advance_status s.stagings sid "entry" "pre_check"
                 else .ok s.stagings) with
          | .error _ => .error "invalid_transition"
          | .ok stagings1 =>
            let resp : Payload := [("staging_id", toString sid), ("status", "pre_check")]
            .ok (resp, { s with stagings := stagings1,
                                idem := store_idempotent_response s.idem scope key resp })

/-- `position_activity` (`temporal/activities.py`): creates the journal
entry and its POSITION line, upserts `position_current`, conditionally
advances `pre_check → position`, writes through the cache, stores the
idempotent response. -/
def position_activity (s : DBState) (sid : ℕ) : Except String (Payload × DBState) :=
  let scope := "activity:advance_status:" ++ toString sid
  let key := "to:position"
  match get_idempotent_response s.idem scope key with
  | some cached => .ok (cached, s)
  | none =>
    if sid = 0 then .error "staging_id_invalid"
    else
      match stagingLookup s.stagings sid with
      | none => .error "staging_not_found"
      | some row =>
        if row.lifecycle ≠ "active" then .error "staging_not_active"
        else if ¬(row.status = "pre_check" ∨ row.status = "position") then
          .error ("unexpected_status:" ++ row.status)
        else
          let amount := match row.qc_gross_amount with
            | some a => a
            | none => row.quantity * row.price
          let ttype := trade_type_from_quantity row.quantity
          let role := entry_role_from_source_system row.source_system
          let reference_entry_id :=
            if role = "reversal" ∨ role = "replacement" then
              (s.transactions.find? (fun t =>
                t.deal_block_id == row.deal_block_id && t.entry_role == "normal")).map
                (fun t => t.id)
            else none
          let txn : AcctTransaction :=
            { id := s.next_txn_id, staging_id := some sid,
              deal_block_id := row.deal_block_id,
              deal_allocation_id := row.deal_allocation_id,
              effective_date := row.trade_date, description := "staging_post",
              trade_type := ttype, entry_role := role,
              reversal_of_id := if role = "reversal" then reference_entry_id else none,
              replacement_of_id := if role = "replacement" then reference_entry_id else none }
          let line : AcctEntry :=
            { acct_transaction_id := s.next_txn_id, portfolio_id := row.portfolio_id,
              instrument_id := row.instrument_id, account_code := "POSITION",
              drcr := if row.quantity > 0 then "DR" else "CR",
              quantity := some row.quantity, amount := amount,
              currency := row.quote_currency }
          let positions1 := match row.portfolio_id with
            | some pid => posUpsert s.positions pid row.instrument_id row.quantity
            | none => s.positions
          match (if row.status = "pre_check" then
                  advance_status s.stagings sid "pre_check" "position"
                 else .ok s.stagings) with
          | .error _ => .error "invalid_transition"
          | .ok stagings1 =>
            let cache1 := match row.portfolio_id with
              | some pid =>
                match posLookup positions1 pid row.instrument_id with
                | some qv => cacheSet s.cache pid row.instrument_id qv
                | none => s.cache
              | none => s.cache
            let resp : Payload :=
              [("staging_id", toString sid), ("status", "position"),
               ("acct_transaction_id", toString s.next_txn_id)]
            .ok (resp, { s with
              transactions := txn :: s.transactions,
              entries := line :: s.entries,
              positions := positions1,
              stagings := stagings1,
              cache := cache1,
              idem := store_idempotent_response s.idem scope key resp,
              next_txn_id := s.next_txn_id + 1 })

/-- `allocation_activity` (`temporal/activities.py`). -/
def allocation_activity (s : DBState) (sid : ℕ) : Except String (Payload × DBState) :=
  let scope := "activity:advance_status:" ++ toString sid
  let key := "to:allocated"
  match get_idempotent_response s.idem scope key with
  | some cached => .ok (cached, s)
  | none =>
    if sid = 0 then .error "staging_id_invalid"
    else
      match stagingLookup s.stagings sid with
      | none => .error "staging_not_found"
      | some row =>
        if row.lifecycle ≠ "active" then .error "staging_not_active"
        else if ¬(row.status = "position" ∨ row.status = "allocated") then
          .error ("unexpected_status:" ++ row.status)
        else if row.level = "allocation" ∧ row.portfolio_id = none then
          .error "allocation_requires_portfolio"
        else
          match (if row.status = "position" then
                  advance_status s.stagings sid "position" "allocated"
                 else .ok s.stagings) with
          | .error _ => .error "invalid_transition"
          | .ok stagings1 =>
            let resp : Payload := [("staging_id", toString sid), ("status", "allocated")]
            .ok (resp, { s with stagings := stagings1,
                                idem := store_idempotent_response s.idem scope key resp })

/-- `settle_activity` (`temporal/activities.py`). -/
def settle_activity (s : DBState) (sid : ℕ) : Except String (Payload × DBState) :=
  let scope := "activity:advance_status:" ++ toString sid
  let key := "to:settled"
  match get_idempotent_response s.idem scope key with
  | some cached => .ok (cached, s)
  | none =>
    if sid = 0 then .error "staging_id_invalid"
    else
      match stagingLookup s.stagings sid with
      | none => .error "staging_not_found"
      | some row =>
        if row.lifecycle ≠ "active" then .error "staging_not_active"
        else if ¬(row.status = "allocated" ∨ row.status = "settled") then
          .error ("unexpected_status:" ++ row.status)
        else
          match (if row.status = "allocated" then
                  advance_status s.stagings sid "allocated" "settled"
                 else .ok s.stagings) with
          | .error _ => .error "invalid_transition"
          | .ok stagings1 =>
            let resp : Payload := [("staging_id", toString sid), ("status", "settled")]
            .ok (resp, { s with stagings := stagings1,
                                idem := store_idempotent_response s.idem scope key resp })

/-- A sample pending trade used by concrete witnesses. -/
def sampleTrade : PendingTrade :=
  { level := "allocation", deal_block_id := none, deal_allocation_id := none,
    portfolio_id := some 7, instrument_id := 3, trade_date := 10, settle_date := none,
    quantity := 5, price := 2, quote_currency := "USD", report_currency := "USD",
    qc_gross_amount := some 10, rc_gross_amount := some 10, status := "entry",
    lifecycle := "active", source_system := none, entry_version := 1 }


/-- C5: the position upsert of `post_position` sets the quantity on first
write and adds the trade's signed quantity on conflict; consequently, after
settling any non-empty sequence of pending trades on one
`(portfolio, instrument)` pair starting from no position, the
`position_current.quantity` equals the signed sum of the trades'
quantities. -/
theorem claim_C5_position_signed_sum (qs : List ℚ) (pid iid : ℕ) (ps : PositionTable)
    (old q : ℚ) (hne : qs ≠ []) :
    (posLookup ps pid iid = none →
      posLookup (posUpsert ps pid iid q) pid iid = some q)
    ∧ (posLookup ps pid iid = some old →
      posLookup (posUpsert ps pid iid q) pid iid = some (old + q))
    ∧ posLookup (qs.foldl (fun acc x => posUpsert acc pid iid x) []) pid iid =
        some qs.sum := by
  refine ⟨?_, ?_, ?_⟩
  · intro h
    rw [posLookup_upsert_self, h]
    simp
  · intro h
    rw [posLookup_upsert_self, h]
    simp
  · match qs, hne with
    | x :: rest, _ =>
      simp only [List.foldl_cons]
      have h0 : posLookup (posUpsert [] pid iid x) pid iid = some x := by
        simp [posUpsert, posLookup]
      have := posLookup_foldl_upsert rest pid iid (posUpsert [] pid iid x) x h0
      rw [this, List.sum_cons]

theorem claim_C5_position_signed_sum_witness :
    (([3, -1, 4] : List ℚ) ≠ [])
    ∧ posLookup (([3, -1, 4] : List ℚ).foldl (fun acc x => posUpsert acc 7 3 x) []) 7 3 =
        some (([3, -1, 4] : List ℚ).sum) :=
  ⟨by simp, (claim_C5_position_signed_sum [3, -1, 4] 7 3 [] 0 0 (by simp)).2.2⟩

theorem precheck_ok_replay (s : DBState) (sid : ℕ) (resp : Payload) (s' : DBState)
    (h : precheck_activity s sid = .ok (resp, s')) :
    precheck_activity s' sid = .ok (resp, s') := by
  simp only [precheck_activity] at h ⊢
  split at h
  · rename_i cached hg
    rw [Except.ok.injEq, Prod.mk.injEq] at h
    obtain ⟨hresp, hstate⟩ := h
    subst hresp
    subst hstate
    rw [hg]
  · split at h
    · exact absurd h (by simp)
    · split at h
      · exact absurd h (by simp)
      · split at h
        · exact absurd h (by simp)
        · split at h
          · exact absurd h (by simp)
          · split at h
            · exact absurd h (by simp)
            · split at h
              · exact absurd h (by simp)
              · split at h
                · exact absurd h (by simp)
                · rw [Except.ok.injEq, Prod.mk.injEq] at h
                  obtain ⟨hresp, hstate⟩ := h
                  subst hresp
                  rw [← hstate]
                  rw [get_store_self]

theorem position_ok_replay (s : DBState) (sid : ℕ) (resp : Payload) (s' : DBState)
    (h : position_activity s sid = .ok (resp, s')) :
    position_activity s' sid = .ok (resp, s') := by
  simp only [position_activity] at h ⊢
  split at h
  · rename_i cached hg
    rw [Except.ok.injEq, Prod.mk.injEq] at h
    obtain ⟨hresp, hstate⟩ := h
    subst hresp
    subst hstate
    rw [hg]
  · split at h
    · exact absurd h (by simp)
    · split at h
      · exact absurd h (by simp)
      · split at h
        · exact absurd h (by simp)
        · split at h
          · exact absurd h (by simp)
          · split at h
            · exact absurd h (by simp)
            · rw [Except.ok.injEq, Prod.mk.injEq] at h
              obtain ⟨hresp, hstate⟩ := h
              subst hresp
              rw [← hstate]
              rw [get_store_self]

theorem allocation_ok_replay (s : DBState) (sid : ℕ) (resp : Payload) (s' : DBState)
    (h : allocation_activity s sid = .ok (resp, s')) :
    allocation_activity s' sid = .ok (resp, s') := by
  simp only [allocation_activity] at h ⊢
  split at h
  · rename_i cached hg
    rw [Except.ok.injEq, Prod.mk.injEq] at h
    obtain ⟨hresp, hstate⟩ := h
    subst hresp
    subst hstate
    rw [hg]
  · split at h
    · exact absurd h (by simp)
    · split at h
      · exact absurd h (by simp)
      · split at h
        · exact absurd h (by simp)
        · split at h
          · exact absurd h (by simp)
          · split at h
            · exact absurd h (by simp)
            · split at h
              · exact absurd h (by simp)
              · rw [Except.ok.injEq, Prod.mk.injEq] at h
                obtain ⟨hresp, hstate⟩ := h
                subst hresp
                rw [← hstate]
                rw [get_store_self]

theorem settle_ok_replay (s : DBState) (sid : ℕ) (resp : Payload) (s' : DBState)
    (h : settle_activity s sid = .ok (resp, s')) :
    settle_activity s' sid = .ok (resp, s') := by
  simp only [settle_activity] at h ⊢
  split at h
  · rename_i cached hg
    rw [Except.ok.injEq, Prod.mk.injEq] at h
    obtain ⟨hresp, hstate⟩ := h
    subst hresp
    subst hstate
    rw [hg]
  · split at h
    · exact absurd h (by simp)
    · split at h
      · exact absurd h (by simp)
      · split at h
        · exact absurd h (by simp)
        · split at h
          · exact absurd h (by simp)
          · split at h
            · exact absurd h (by simp)
            · rw [Except.ok.injEq, Prod.mk.injEq] at h
              obtain ⟨hresp, hstate⟩ := h
              subst hresp
              rw [← hstate]
              rw [get_store_self]

/-- C1: for every trade activity (precheck, post_position, allocate, settle)
and every pending trade, executing the activity a second time after a first
successful execution returns the previously stored response with the state
completely unchanged: no additional journal entries or lines, no position
change, no cache write, and no further status change. -/
theorem claim_C1_activity_at_most_once (s : DBState) (sid : ℕ) (resp : Payload)
    (s' : DBState) :
    (precheck_activity s sid = .ok (resp, s') →
      precheck_activity s' sid = .ok (resp, s'))
    ∧ (position_activity s sid = .ok (resp, s') →
      position_activity s' sid = .ok (resp, s'))
    ∧ (allocation_activity s sid = .ok (resp, s') →
      allocation_activity s' sid = .ok (resp, s'))
    ∧ (settle_activity s sid = .ok (resp, s') →
      settle_activity s' sid = .ok (resp, s')) :=
  ⟨precheck_ok_replay s sid resp s', position_ok_replay s sid resp s',
   allocation_ok_replay s sid resp s', settle_ok_replay s sid resp s'⟩

/-- An initial one-trade database whose single pending trade has the given
status; used by concrete witnesses. -/
def witnessState (st : String) : DBState :=
  { stagings := [(1, { sampleTrade with status := st })], transactions := [],
    entries := [], positions := [], idem := [], cache := [], next_txn_id := 1 }

theorem claim_C1_activity_at_most_once_witness :
    ∃ r1 t1 r2 t2 r3 t3 r4 t4,
      precheck_activity (witnessState "entry") 1 = .ok (r1, t1)
      ∧ precheck_activity t1 1 = .ok (r1, t1)
      ∧ position_activity (witnessState "pre_check") 1 = .ok (r2, t2)
      ∧ position_activity t2 1 = .ok (r2, t2)
      ∧ allocation_activity (witnessState "position") 1 = .ok (r3, t3)
      ∧ allocation_activity t3 1 = .ok (r3, t3)
      ∧ settle_activity (witnessState "allocated") 1 = .ok (r4, t4)
      ∧ settle_activity t4 1 = .ok (r4, t4) := by
  refine ⟨_, _, _, _, _, _, _, _, rfl, ?_, rfl, ?_, rfl, ?_, rfl, ?_⟩
  · exact (claim_C1_activity_at_most_once (witnessState "entry") 1 _ _).1 rfl
  · exact (claim_C1_activity_at_most_once (witnessState "pre_check") 1 _ _).2.1 rfl
  · exact (claim_C1_activity_at_most_once (witnessState "position") 1 _ _).2.2.1 rfl
  · exact (claim_C1_activity_at_most_once (witnessState "allocated") 1 _ _).2.2.2 rfl

/-- C7: for every pending trade processed by a fresh (non-cached) successful
`post_position`, the created journal entry has `trade_type = BUY` iff the
quantity is ≥ 0 (else `SELL`); `entry_role` is `reversal` for
`modify_reversal`/`delete_reversal` source systems, `replacement` for
`modify_replacement`, `normal` otherwise; and its POSITION line carries
`drcr = DR` iff quantity > 0 (else `CR`), the signed quantity, the signed
amount (`qc_gross_amount`, or `quantity × price` when absent), and the
trade's quote currency. -/
theorem claim_C7_journal_entry_fields (s : DBState) (sid : ℕ) (resp : Payload)
    (s' : DBState) (row : PendingTrade)
    (hrow : stagingLookup s.stagings sid = some row)
    (hfresh : get_idempotent_response s.idem
      ("activity:advance_status:" ++ toString sid) "to:position" = none)
    (h : position_activity s sid = .ok (resp, s')) :
    ∃ t line, s'.transactions = t :: s.transactions
      ∧ s'.entries = line :: s.entries
      ∧ t.trade_type = (if row.quantity ≥ 0 then "BUY" else "SELL")
      ∧ ((row.source_system = some "modify_reversal"
          ∨ row.source_system = some "delete_reversal") → t.entry_role = "reversal")
      ∧ (row.source_system = some "modify_replacement" → t.entry_role = "replacement")
      ∧ (¬(row.source_system = some "modify_reversal"
          ∨ row.source_system = some "delete_reversal"
          ∨ row.source_system = some "modify_replacement") → t.entry_role = "normal")
      ∧ line.acct_transaction_id = t.id
      ∧ line.account_code = "POSITION"
      ∧ line.drcr = (if row.quantity > 0 then "DR" else "CR")
      ∧ line.quantity = some row.quantity
      ∧ (∀ a, row.qc_gross_amount = some a → line.amount = a)
      ∧ (row.qc_gross_amount = none → line.amount = row.quantity * row.price)
      ∧ line.currency = row.quote_currency := by
  simp only [position_activity] at h
  split at h
  · rename_i cached hg
    rw [hfresh] at hg
    exact absurd hg (by simp)
  · split at h
    · exact absurd h (by simp)
    · split at h
      · exact absurd h (by simp)
      · rename_i row2 hrow2
        rw [hrow] at hrow2
        rw [Option.some.injEq] at hrow2
        subst hrow2
        split at h
        · exact absurd h (by simp)
        · split at h
          · exact absurd h (by simp)
          · split at h
            · exact absurd h (by simp)
            · rw [Except.ok.injEq, Prod.mk.injEq] at h
              obtain ⟨hresp, hstate⟩ := h
              subst hstate
              refine ⟨_, _, rfl, rfl, ?_, ?_, ?_, ?_, rfl, rfl, rfl, rfl, ?_, ?_, rfl⟩
              · simp [trade_type_from_quantity]
              · intro hss
                rcases hss with hss | hss <;>
                  simp [entry_role_from_source_system, hss]
              · intro hss
                simp [entry_role_from_source_system, hss]
              · intro hss
                push_neg at hss
                obtain ⟨h1, h2, h3⟩ := hss
                simp [entry_role_from_source_system, h1, h2, h3]
              · intro a ha
                simp [ha]
              · intro ha
                simp [ha]

theorem claim_C7_journal_entry_fields_witness :
    ∃ resp s' t line,
      stagingLookup (witnessState "pre_check").stagings 1 =
        some { sampleTrade with status := "pre_check" }
      ∧ position_activity (witnessState "pre_check") 1 = .ok (resp, s')
      ∧ s'.transactions = t :: (witnessState "pre_check").transactions
      ∧ s'.entries = line :: (witnessState "pre_check").entries
      ∧ t.trade_type =
          (if ({ sampleTrade with status := "pre_check" } : PendingTrade).quantity ≥ 0
            then "BUY" else "SELL") := by
  obtain ⟨t, line, h1, h2, h3, _⟩ :=
    claim_C7_journal_entry_fields (witnessState "pre_check") 1 _ _
      { sampleTrade with status := "pre_check" } rfl rfl rfl
  exact ⟨_, _, t, line, rfl, rfl, h1, h2, h3⟩

/-- The request body of `POST /staging-transactions`
(`CreateStagingRequest` in `api/schemas.py`).  The ids arrive as decimal
strings; they are modelled as the already-lexed integers that Python's
`int(raw)` produces, so `_parse_numeric_id`'s positivity check remains. -/
structure CreateStagingBody where
  level : String
  portfolio_id : Option ℤ
  instrument_id : ℤ
  trade_date : ℕ
  settle_date : Option ℕ
  quantity : ℚ
  price : ℚ
  quote_currency : String
  report_currency : String
deriving DecidableEq, Repr

/-- `_parse_numeric_id` in `api/staging.py`: a non-positive id raises
`invalid_<field>`. -/
def parse_numeric_id (v : ℤ) (field : String) : Except String ℕ :=
  if v ≤ 0 then .error ("invalid_" ++ field) else .ok v.toNat

/-- The state `create_staging_transaction` acts on. -/
structure ApiState where
  stagings : StagingTable
  idem : IdemTable
  next_staging_id : ℕ
deriving DecidableEq, Repr

/-- `create_staging_transaction` (`POST /staging-transactions` in
`api/staging.py`): the double-check idempotency gate
(get → claim → on lose get again), then the row insert in
`status=entry, lifecycle=active, entry_version=1`, then the response is
cached under the key. -/
def create_staging_transaction (s : ApiState) (body : CreateStagingBody)
    (idempotency_key : Option String) : Except String (Payload × ApiState) :=
  let scope := "api:create_staging"
  let proceed : IdemTable → Except String (Payload × ApiState) := fun idem0 =>
    match (match body.portfolio_id with
           | some v => (parse_numeric_id v "portfolio_id").map some
           | none => .ok none) with
    | .error e => .error e
    | .ok pid? =>
      match parse_numeric_id body.instrument_id "instrument_id" with
      | .error e => .error e
      | .ok iid =>
        let row : PendingTrade :=
          { level := body.level, deal_block_id := none, deal_allocation_id := none,
            portfolio_id := pid?, instrument_id := iid, trade_date := body.trade_date,
            settle_date := body.settle_date, quantity := body.quantity,
            price := body.price, quote_currency := body.quote_currency,
            report_currency := body.report_currency, qc_gross_amount := none,
            rc_gross_amount := none, status := "entry", lifecycle := "active",
            source_system := none, entry_version := 1 }
        let sid := s.next_staging_id
        let resp : Payload :=
          [("id", toString sid), ("status", "entry"), ("lifecycle", "active"),
           ("entry_version", toString (1 : ℕ))]
        let idem1 := match idempotency_key with
          | some k => store_idempotent_response idem0 scope k resp
          | none => idem0
        .ok (resp, { stagings := (sid, row) :: s.stagings, idem := idem1,
                     next_staging_id := sid + 1 })
  match idempotency_key with
  | none => proceed s.idem
  | some k =>
    match get_idempotent_response s.idem scope k with
    | some cached => .ok (cached, s)
    | none =>
      let cl := claim_idempotency s.idem scope k
      if cl.1 then proceed cl.2
      else
        match get_idempotent_response cl.2 scope k with
        | some cached => .ok (cached, { s with idem := cl.2 })
        | none => proceed cl.2

/-- C6: for sequential `POST /staging-transactions` requests with the same
`Idempotency-Key`, the second request (with any body) returns the identical
response body and leaves the state untouched: in particular, no second
pending-trade row is persisted. -/
theorem claim_C6_idempotent_create (s : ApiState) (body body' : CreateStagingBody)
    (k : String) (resp : Payload) (s' : ApiState)
    (h : create_staging_transaction s body (some k) = .ok (resp, s')) :
    create_staging_transaction s' body' (some k) = .ok (resp, s') := by
  simp only [create_staging_transaction] at h ⊢
  split at h
  · rename_i cached hg
    rw [Except.ok.injEq, Prod.mk.injEq] at h
    obtain ⟨hresp, hstate⟩ := h
    subst hresp
    subst hstate
    rw [hg]
  · split at h
    · -- claim won: the insert + store path
      split at h
      · exact absurd h (by simp)
      · split at h
        · exact absurd h (by simp)
        · rw [Except.ok.injEq, Prod.mk.injEq] at h
          obtain ⟨hresp, hstate⟩ := h
          subst hresp
          rw [← hstate]
          rw [get_store_self]
    · split at h
      · rename_i cached hg2
        rw [Except.ok.injEq, Prod.mk.injEq] at h
        obtain ⟨hresp, hstate⟩ := h
        subst hresp
        rw [← hstate]
        rw [hg2]
      · split at h
        · exact absurd h (by simp)
        · split at h
          · exact absurd h (by simp)
          · rw [Except.ok.injEq, Prod.mk.injEq] at h
            obtain ⟨hresp, hstate⟩ := h
            subst hresp
            rw [← hstate]
            rw [get_store_self]

/-- A sample create request used by the C6 witness. -/
def sampleCreateBody : CreateStagingBody :=
  { level := "allocation", portfolio_id := some 7, instrument_id := 3,
    trade_date := 10, settle_date := none, quantity := 5, price := 2,
    quote_currency := "USD", report_currency := "USD" }

theorem claim_C6_idempotent_create_witness :
    ∃ resp s',
      create_staging_transaction
        { stagings := [], idem := [], next_staging_id := 1 } sampleCreateBody
        (some "K1") = .ok (resp, s')
      ∧ create_staging_transaction s' sampleCreateBody (some "K1") = .ok (resp, s') := by
  refine ⟨_, _, rfl, ?_⟩
  exact claim_C6_idempotent_create { stagings := [], idem := [], next_staging_id := 1 }
    sampleCreateBody sampleCreateBody "K1" _ _ rfl

/-- Little-endian decimal digits of `n`, with explicit structural fuel
(`fuel ≥ n` suffices since `n / 10 < n` for `n > 0`). -/
def decimalDigits (fuel n : ℕ) : List ℕ :=
  match fuel, n with
  | 0, _ => []
  | _ + 1, 0 => []
  | fuel + 1, n + 1 => ((n + 1) % 10) :: decimalDigits fuel ((n + 1) / 10)

/-- The big-endian decimal digit sequence of `n` — the character sequence of
Python's `str(n)` for positive `n`, with digit characters mapped to their
values (an order-isomorphism, so string comparison is digit-list
comparison). -/
def pyDigits (n : ℕ) : List ℕ := (decimalDigits n n).reverse

/-- Lexicographic strict comparison of digit sequences: a strict prefix is
smaller, otherwise the first differing digit decides (exactly how Python
compares the underlying strings character by character). -/
def lexLtB : List ℕ → List ℕ → Bool
  | _, [] => false
  | [], _ :: _ => true
  | a :: as, b :: bs => if a < b then true else if b < a then false else lexLtB as bs

theorem lexLtB_asymm (x y : List ℕ) (h : lexLtB x y = true) : lexLtB y x = false := by
  induction x generalizing y with
  | nil =>
    cases y with
    | nil => simp [lexLtB] at h
    | cons b bs => rfl
  | cons a as ih =>
    cases y with
    | nil => simp [lexLtB] at h
    | cons b bs =>
      by_cases hab : a < b
      · have hba : ¬ b < a := by omega
        simp only [lexLtB, if_neg hba, if_pos hab]
      · by_cases hba : b < a
        · simp [lexLtB, hab, hba] at h
        · simp only [lexLtB, if_neg hab, if_neg hba] at h
          simp only [lexLtB, if_neg hba, if_neg hab]
          exact ih bs h

theorem lexLtB_trans (x y z : List ℕ) (h1 : lexLtB x y = true)
    (h2 : lexLtB y z = true) : lexLtB x z = true := by
  induction x generalizing y z with
  | nil =>
    cases z with
    | nil =>
      cases y with
      | nil => simp [lexLtB] at h1
      | cons b bs => simp [lexLtB] at h2
    | cons c cs => rfl
  | cons a as ih =>
    cases y with
    | nil => simp [lexLtB] at h1
    | cons b bs =>
      cases z with
      | nil => simp [lexLtB] at h2
      | cons c cs =>
        by_cases hab : a < b <;> by_cases hbc : b < c
        · have hac : a < c := by omega
          simp [lexLtB, hac]
        · by_cases hcb : c < b
          · simp [lexLtB, hbc, hcb] at h2
          · have hbceq : b = c := by omega
            subst hbceq
            simp [lexLtB, hab]
        · by_cases hba : b < a
          · simp [lexLtB, hab, hba] at h1
          · have habeq : a = b := by omega
            subst habeq
            simp [lexLtB, hbc]
        · by_cases hba : b < a
          · simp [lexLtB, hab, hba] at h1
          · by_cases hcb : c < b
            · simp [lexLtB, hbc, hcb] at h2
            · have habeq : a = b := by omega
              have hbceq : b = c := by omega
              subst habeq
              subst hbceq
              simp only [lexLtB, if_neg hab, if_neg hba] at h1 h2 ⊢
              exact ih bs cs h1 h2

/-- Python's `str(a) < str(b)` on positive integers: lexicographic
comparison of the decimal digit sequences. -/
abbrev pyStrLt (a b : ℕ) : Prop := lexLtB (pyDigits a) (pyDigits b) = true

theorem pyStrLt_asymm {a b : ℕ} (h : pyStrLt a b) : ¬ pyStrLt b a := by
  rw [pyStrLt, lexLtB_asymm _ _ h]
  simp

theorem pyStrLt_trans {a b c : ℕ} (h1 : pyStrLt a b) (h2 : pyStrLt b c) :
    pyStrLt a c :=
  lexLtB_trans _ _ _ h1 h2

example : pyStrLt 10 2 := by decide
example : ¬ pyStrLt 2 10 := by decide
example : pyStrLt 1 10 := by decide
example : pyStrLt 10 9 := by decide

/-- Insertion step of Python's stable sort by the string key. -/
def insertByStr (x : ℕ) : List ℕ → List ℕ
  | [] => [x]
  | y :: ys => if pyStrLt x y then x :: y :: ys else y :: insertByStr x ys

/-- `sorted(keys, key=lambda v: str(v))` in `_create_deal_adjustment_stagings`
(`api/staging.py`): sort by the decimal-string representation. -/
def sortByStr (l : List ℕ) : List ℕ := l.foldr insertByStr []

theorem insertByStr_perm (x : ℕ) (l : List ℕ) : List.Perm (insertByStr x l) (x :: l) := by
  induction l with
  | nil => rfl
  | cons y ys ih =>
    by_cases hc : pyStrLt x y
    · rw [insertByStr, if_pos hc]
    · rw [insertByStr, if_neg hc]
      exact (ih.cons y).trans (List.Perm.swap x y ys)

theorem sortByStr_perm (l : List ℕ) : List.Perm (sortByStr l) l := by
  induction l with
  | nil => rfl
  | cons x xs ih =>
    exact (insertByStr_perm x (sortByStr xs)).trans (ih.cons x)

theorem mem_sortByStr (a : ℕ) (l : List ℕ) : a ∈ sortByStr l ↔ a ∈ l :=
  (sortByStr_perm l).mem_iff

theorem pairwise_insertByStr (x : ℕ) (l : List ℕ)
    (h : l.Pairwise (fun a b => ¬ pyStrLt b a)) :
    (insertByStr x l).Pairwise (fun a b => ¬ pyStrLt b a) := by
  induction l with
  | nil => simp [insertByStr]
  | cons y ys ih =>
    rw [List.pairwise_cons] at h
    obtain ⟨hy, hys⟩ := h
    by_cases hc : pyStrLt x y
    · rw [insertByStr, if_pos hc, List.pairwise_cons]
      refine ⟨?_, List.pairwise_cons.mpr ⟨hy, hys⟩⟩
      intro z hz
      rcases List.mem_cons.mp hz with hz | hz
      · rw [hz]
        exact pyStrLt_asymm hc
      · intro hlt
        exact hy z hz (pyStrLt_trans hlt hc)
    · rw [insertByStr, if_neg hc, List.pairwise_cons]
      refine ⟨?_, ih hys⟩
      intro z hz
      have hz' : z ∈ x :: ys := (insertByStr_perm x ys).mem_iff.mp hz
      rcases List.mem_cons.mp hz' with hz1 | hz1
      · rw [hz1]
        exact hc
      · exact hy z hz1

theorem sortByStr_pairwise (l : List ℕ) :
    (sortByStr l).Pairwise (fun a b => ¬ pyStrLt b a) := by
  induction l with
  | nil => simp [sortByStr]
  | cons x xs ih => exact pairwise_insertByStr x (sortByStr xs) ih

/-- One element of the local `allocation_plan` in
`_create_deal_adjustment_stagings`: `(portfolio_id, quantity, source_system)`. -/
structure PlanEntry where
  portfolio_id : ℕ
  quantity : ℚ
  source_system : Option String
deriving DecidableEq, Repr

/-- A per-portfolio signed quantity dict. -/
abbrev QtyMap := List (ℕ × ℚ)

def qtyLookup (m : QtyMap) (pid : ℕ) : Option ℚ :=
  (m.find? (fun e => e.1 == pid)).map (fun e => e.2)

/-- The per-portfolio delta `target - current` of
`_create_deal_adjustment_stagings` (absent keys count as 0). -/
def deltaOf (current target : QtyMap) (pid : ℕ) : ℚ :=
  (qtyLookup target pid).getD 0 - (qtyLookup current pid).getD 0

/-- `delta_by_portfolio`: the nonzero deltas over the key union. -/
def deltaByPortfolio (current target : QtyMap) : QtyMap :=
  ((current.map Prod.fst ++ target.map Prod.fst).dedup).filterMap (fun pid =>
    if deltaOf current target pid ≠ 0 then some (pid, deltaOf current target pid)
    else none)

/-- The `allocation_plan` construction of `_create_deal_adjustment_stagings`
(`api/staging.py` lines 131–144): in forced reversal-replacement mode
(modify), one `modify_reversal` entry with quantity `-current` per
currently-nonzero portfolio in `sorted(keys, key=str)` order, then one
`modify_replacement` entry with quantity `+target` per target-nonzero
portfolio in the same order; otherwise one entry per nonzero delta
(`delete_reversal` when deleting, untagged otherwise). -/
def buildAllocationPlan (current target : QtyMap)
    (mark_deleted force_reversal_replacement : Bool) : List PlanEntry :=
  if force_reversal_replacement ∧ ¬ mark_deleted then
    (sortByStr (current.map Prod.fst)).filterMap (fun pid =>
      match qtyLookup current pid with
      | some qty =>
        if qty ≠ 0 then some ⟨pid, -qty, some "modify_reversal"⟩ else none
      | none => none)
    ++ (sortByStr (target.map Prod.fst)).filterMap (fun pid =>
      match qtyLookup target pid with
      | some qty =>
        if qty ≠ 0 then some ⟨pid, qty, some "modify_replacement"⟩ else none
      | none => none)
  else
    (sortByStr ((deltaByPortfolio current target).map Prod.fst)).filterMap (fun pid =>
      match qtyLookup (deltaByPortfolio current target) pid with
      | some d =>
        some ⟨pid, d, if mark_deleted then some "delete_reversal" else none⟩
      | none => none)

theorem mem_keys_of_qtyLookup (m : QtyMap) (pid : ℕ) (c : ℚ)
    (h : qtyLookup m pid = some c) : pid ∈ m.map Prod.fst := by
  induction m with
  | nil => simp [qtyLookup] at h
  | cons e rest ih =>
    by_cases hc : e.1 = pid
    · simp [hc]
    · have hc' : (e.1 == pid) = false := by simp [hc]
      simp only [qtyLookup, List.find?_cons, hc'] at h
      simp only [List.map_cons, List.mem_cons]
      exact Or.inr (ih h)

theorem qtyLookup_isSome_of_mem (m : QtyMap) (pid : ℕ) (h : pid ∈ m.map Prod.fst) :
    ∃ c, qtyLookup m pid = some c := by
  induction m with
  | nil => simp at h
  | cons e rest ih =>
    by_cases hc : e.1 = pid
    · exact ⟨e.2, by simp [qtyLookup, List.find?_cons, hc]⟩
    · have hc' : (e.1 == pid) = false := by simp [hc]
      have h' : pid ∈ e.1 :: rest.map Prod.fst := by
        simpa only [List.map_cons] using h
      have hmem : pid ∈ rest.map Prod.fst := by
        rcases List.mem_cons.mp h' with h1 | h1
        · exact absurd h1.symm hc
        · exact h1
      obtain ⟨c, hcq⟩ := ih hmem
      exact ⟨c, by simpa [qtyLookup, List.find?_cons, hc'] using hcq⟩

theorem filterMap_pid_sublist (f : ℕ → Option PlanEntry) (l : List ℕ)
    (hf : ∀ a e, f a = some e → e.portfolio_id = a) :
    List.Sublist ((l.filterMap f).map (fun e => e.portfolio_id)) l := by
  induction l with
  | nil => simp
  | cons a rest ih =>
    cases hfa : f a with
    | none =>
      rw [List.filterMap_cons_none hfa]
      exact ih.cons a
    | some e =>
      rw [List.filterMap_cons_some hfa]
      rw [List.map_cons, hf a e hfa]
      exact ih.cons₂ a

theorem pairwise_filterMap_pid {R : ℕ → ℕ → Prop} (f : ℕ → Option PlanEntry)
    (l : List ℕ) (hf : ∀ a e, f a = some e → e.portfolio_id = a)
    (h : l.Pairwise R) :
    (l.filterMap f).Pairwise (fun x y => R x.portfolio_id y.portfolio_id) := by
  induction l with
  | nil => simp
  | cons a rest ih =>
    rw [List.pairwise_cons] at h
    obtain ⟨ha, h'⟩ := h
    cases hfa : f a with
    | none =>
      rw [List.filterMap_cons_none hfa]
      exact ih h'
    | some e =>
      rw [List.filterMap_cons_some hfa, List.pairwise_cons]
      refine ⟨?_, ih h'⟩
      intro y hy
      obtain ⟨b, hb, hfb⟩ := List.mem_filterMap.mp hy
      rw [hf a e hfa, hf b y hfb]
      exact ha b hb

theorem qtyLookup_cons (k : ℕ) (v : ℚ) (rest : QtyMap) (pid : ℕ) :
    qtyLookup ((k, v) :: rest) pid =
      if k = pid then some v else qtyLookup rest pid := by
  by_cases h : k = pid <;> simp [qtyLookup, List.find?_cons, h]

theorem qtyLookup_filterMap_if (keys : List ℕ) (g : ℕ → ℚ) (P : ℕ → Prop)
    [DecidablePred P] (pid : ℕ) (hnd : keys.Nodup) :
    qtyLookup (keys.filterMap (fun k => if P k then some (k, g k) else none)) pid =
      if pid ∈ keys ∧ P pid then some (g pid) else none := by
  induction keys with
  | nil => simp [qtyLookup]
  | cons a rest ih =>
    rw [List.nodup_cons] at hnd
    obtain ⟨hna, hnr⟩ := hnd
    by_cases hpa : P a
    · simp only [List.filterMap_cons, if_pos hpa]
      rw [qtyLookup_cons, ih hnr]
      by_cases hap : a = pid
      · subst hap
        rw [if_pos rfl, if_pos ⟨List.mem_cons_self a rest, hpa⟩]
      · rw [if_neg hap]
        by_cases hmem : pid ∈ rest ∧ P pid
        · rw [if_pos hmem, if_pos ⟨List.mem_cons_of_mem _ hmem.1, hmem.2⟩]
        · rw [if_neg hmem, if_neg ?_]
          intro hcon
          rcases List.mem_cons.mp hcon.1 with h1 | h1
          · exact hap h1.symm
          · exact hmem ⟨h1, hcon.2⟩
    · simp only [List.filterMap_cons, if_neg hpa]
      rw [ih hnr]
      by_cases hmem : pid ∈ rest ∧ P pid
      · rw [if_pos hmem, if_pos ⟨List.mem_cons_of_mem _ hmem.1, hmem.2⟩]
      · rw [if_neg hmem, if_neg ?_]
        intro hcon
        rcases List.mem_cons.mp hcon.1 with h1 | h1
        · exact hpa (h1 ▸ hcon.2)
        · exact hmem ⟨h1, hcon.2⟩

/-- One of the two `for pid in sorted(...keys(), key=str)` emission loops of
`_create_deal_adjustment_stagings`: per nonzero entry of `m` (in decimal
string order of the key) one plan entry tagged `tag`, with quantity `t qty`
(`t` is negation for a reversal loop, identity for a replacement loop). -/
def segmentPlan (m : QtyMap) (t : ℚ → ℚ) (tag : String) : List PlanEntry :=
  (sortByStr (m.map Prod.fst)).filterMap (fun pid =>
    match qtyLookup m pid with
    | some qty => if qty ≠ 0 then some ⟨pid, t qty, some tag⟩ else none
    | none => none)

theorem segment_spec (m : QtyMap) (t : ℚ → ℚ) (tag : String)
    (hm : (m.map Prod.fst).Nodup) :
    (∀ e ∈ segmentPlan m t tag, e.source_system = some tag)
    ∧ (segmentPlan m t tag).Pairwise
        (fun a b => ¬ pyStrLt b.portfolio_id a.portfolio_id)
    ∧ ((segmentPlan m t tag).map (fun e => e.portfolio_id)).Nodup
    ∧ (∀ pid q ss, (⟨pid, q, ss⟩ : PlanEntry) ∈ segmentPlan m t tag ↔
        (ss = some tag ∧ ∃ c, qtyLookup m pid = some c ∧ c ≠ 0 ∧ q = t c)) := by
  have hf : ∀ a e,
      (match qtyLookup m a with
        | some qty => if qty ≠ 0 then some (⟨a, t qty, some tag⟩ : PlanEntry) else none
        | none => none) = some e →
      e.portfolio_id = a ∧ e.source_system = some tag
      ∧ ∃ c, qtyLookup m a = some c ∧ c ≠ 0 ∧ e.quantity = t c := by
    intro a e he
    cases hq : qtyLookup m a with
    | none =>
      simp only [hq] at he
      exact absurd he (by simp)
    | some c =>
      simp only [hq] at he
      by_cases hc : c ≠ 0
      · rw [if_pos hc, Option.some.injEq] at he
        subst he
        exact ⟨rfl, rfl, c, rfl, hc, rfl⟩
      · rw [if_neg hc] at he
        exact absurd he (by simp)
  have hnd : (sortByStr (m.map Prod.fst)).Nodup :=
    ((sortByStr_perm (m.map Prod.fst)).nodup_iff).mpr hm
  refine ⟨?_, ?_, ?_, ?_⟩
  · intro e he
    obtain ⟨b, _, hfb⟩ := List.mem_filterMap.mp he
    exact (hf b e hfb).2.1
  · exact pairwise_filterMap_pid _ _ (fun a e he => (hf a e he).1)
      (sortByStr_pairwise (m.map Prod.fst))
  · exact (filterMap_pid_sublist _ _ (fun a e he => (hf a e he).1)).nodup hnd
  · intro pid q ss
    constructor
    · intro hmem
      obtain ⟨b, _, hfb⟩ := List.mem_filterMap.mp hmem
      obtain ⟨h1, h2, c, h3, h4, h5⟩ := hf b _ hfb
      simp only at h1 h2 h5
      subst h1
      exact ⟨h2, c, h3, h4, h5⟩
    · rintro ⟨hss, c, hc, hc0, hq⟩
      subst hss
      subst hq
      refine List.mem_filterMap.mpr ⟨pid, ?_, ?_⟩
      · exact (mem_sortByStr _ _).mpr (mem_keys_of_qtyLookup m pid c hc)
      · simp only [hc]
        rw [if_pos hc0]

/-- `deltaOf` against an empty target is the negated current quantity. -/
theorem deltaOf_empty_target (current : QtyMap) (pid : ℕ) :
    deltaOf current [] pid = -((qtyLookup current pid).getD 0) := by
  simp [deltaOf, qtyLookup]

theorem qtyLookup_delta_empty_target (current : QtyMap) (pid : ℕ)
    (hcur : (current.map Prod.fst).Nodup) :
    qtyLookup (deltaByPortfolio current []) pid =
      if pid ∈ current.map Prod.fst ∧ deltaOf current [] pid ≠ 0 then
        some (deltaOf current [] pid)
      else none := by
  have hkeys : (current.map Prod.fst ++ ([] : QtyMap).map Prod.fst).dedup =
      current.map Prod.fst := by
    simp [List.Nodup.dedup hcur]
  rw [deltaByPortfolio, hkeys]
  exact qtyLookup_filterMap_if (current.map Prod.fst) (deltaOf current [])
    (fun k => deltaOf current [] k ≠ 0) pid hcur

/-- C2 (amended): the plan emitted by `_create_deal_adjustment_stagings`:
in modify mode it is all `modify_reversal` entries (quantity `-current`, one
per currently-nonzero portfolio) followed by all `modify_replacement`
entries (quantity `+target`, one per target-nonzero portfolio), each segment
ordered by the *decimal-string* (lexicographic) order of the portfolio id —
not by numeric id; in delete mode it is one `delete_reversal` entry with
quantity `-current` per currently-nonzero portfolio, in the same
string order. -/
theorem claim_C2_plan_order (current target : QtyMap)
    (hcur : (current.map Prod.fst).Nodup) (htgt : (target.map Prod.fst).Nodup) :
    (∃ revs reps, buildAllocationPlan current target false true = revs ++ reps
      ∧ (∀ e ∈ revs, e.source_system = some "modify_reversal")
      ∧ (∀ e ∈ reps, e.source_system = some "modify_replacement")
      ∧ revs.Pairwise (fun a b => ¬ pyStrLt b.portfolio_id a.portfolio_id)
      ∧ reps.Pairwise (fun a b => ¬ pyStrLt b.portfolio_id a.portfolio_id)
      ∧ (revs.map (fun e => e.portfolio_id)).Nodup
      ∧ (reps.map (fun e => e.portfolio_id)).Nodup
      ∧ (∀ pid q ss, (⟨pid, q, ss⟩ : PlanEntry) ∈ revs ↔
          (ss = some "modify_reversal"
            ∧ ∃ c, qtyLookup current pid = some c ∧ c ≠ 0 ∧ q = -c))
      ∧ (∀ pid q ss, (⟨pid, q, ss⟩ : PlanEntry) ∈ reps ↔
          (ss = some "modify_replacement"
            ∧ ∃ c, qtyLookup target pid = some c ∧ c ≠ 0 ∧ q = c)))
    ∧ ((∀ e ∈ buildAllocationPlan current [] true false,
          e.source_system = some "delete_reversal")
      ∧ (buildAllocationPlan current [] true false).Pairwise
          (fun a b => ¬ pyStrLt b.portfolio_id a.portfolio_id)
      ∧ (∀ pid q ss,
          (⟨pid, q, ss⟩ : PlanEntry) ∈ buildAllocationPlan current [] true false ↔
          (ss = some "delete_reversal"
            ∧ ∃ c, qtyLookup current pid = some c ∧ c ≠ 0 ∧ q = -c))) := by
  constructor
  · obtain ⟨hsrc1, hpair1, hnd1, hmem1⟩ :=
      segment_spec current (fun q => -q) "modify_reversal" hcur
    obtain ⟨hsrc2, hpair2, hnd2, hmem2⟩ :=
      segment_spec target (fun q => q) "modify_replacement" htgt
    refine ⟨_, _, ?_, hsrc1, hsrc2, hpair1, hpair2, hnd1, hnd2, hmem1, hmem2⟩
    rw [buildAllocationPlan, if_pos (by simp)]
    rfl
  · have hplan : buildAllocationPlan current [] true false =
        (sortByStr ((deltaByPortfolio current []).map Prod.fst)).filterMap (fun pid =>
          match qtyLookup (deltaByPortfolio current []) pid with
          | some d => some ⟨pid, d, some "delete_reversal"⟩
          | none => none) := by
      rw [buildAllocationPlan, if_neg (by simp)]
      exact rfl
    have hfdel : ∀ a e,
        (fun pid =>
          match qtyLookup (deltaByPortfolio current []) pid with
          | some d => some (⟨pid, d, some "delete_reversal"⟩ : PlanEntry)
          | none => none) a = some e →
        e.portfolio_id = a ∧ e.source_system = some "delete_reversal"
        ∧ qtyLookup (deltaByPortfolio current []) a = some e.quantity := by
      intro a e he
      cases hq : qtyLookup (deltaByPortfolio current []) a with
      | none => simp [hq] at he
      | some d =>
        simp only [hq, Option.some.injEq] at he
        subst he
        exact ⟨rfl, rfl, rfl⟩
    refine ⟨?_, ?_, ?_⟩
    · intro e he
      rw [hplan] at he
      obtain ⟨b, _, hfb⟩ := List.mem_filterMap.mp he
      exact (hfdel b e hfb).2.1
    · rw [hplan]
      exact pairwise_filterMap_pid _ _ (fun a e he => (hfdel a e he).1)
        (sortByStr_pairwise _)
    · intro pid q ss
      rw [hplan]
      constructor
      · intro hmem
        obtain ⟨b, _, hfb⟩ := List.mem_filterMap.mp hmem
        obtain ⟨h1, h2, h3⟩ := hfdel b _ hfb
        simp only at h1 h2 h3
        subst h1
        rw [qtyLookup_delta_empty_target current pid hcur] at h3
        by_cases hc : pid ∈ current.map Prod.fst ∧ deltaOf current [] pid ≠ 0
        · rw [if_pos hc] at h3
          obtain ⟨c, hcq⟩ := qtyLookup_isSome_of_mem current pid hc.1
          refine ⟨h2, c, hcq, ?_, ?_⟩
          · intro hc0
            apply hc.2
            simp [deltaOf_empty_target, hcq, hc0]
          · rw [Option.some.injEq] at h3
            rw [← h3, deltaOf_empty_target, hcq]
            rfl
        · rw [if_neg hc] at h3
          exact absurd h3 (by simp)
      · rintro ⟨hss, c, hc, hc0, hq⟩
        subst hss
        subst hq
        have hdel : qtyLookup (deltaByPortfolio current []) pid = some (-c) := by
          have hd0 : deltaOf current [] pid = -c := by
            simp [deltaOf_empty_target, hc]
          have hne : deltaOf current [] pid ≠ 0 := by
            rw [hd0]
            simpa using hc0
          rw [qtyLookup_delta_empty_target current pid hcur,
            if_pos ⟨mem_keys_of_qtyLookup current pid c hc, hne⟩, hd0]
        refine List.mem_filterMap.mpr ⟨pid, ?_, ?_⟩
        · exact (mem_sortByStr _ _).mpr
            (mem_keys_of_qtyLookup (deltaByPortfolio current []) pid (-c) hdel)
        · simp only [hdel]

/-- The claim's stated ordering — ascending numeric portfolio id within the
reversal prefix — fails: with portfolios 2 and 10 the string sort puts 10
before 2. -/
theorem claim_C2_plan_order_counterexample :
    ((buildAllocationPlan [(2, 5), (10, 5)] [(2, 3), (10, 7)] false true).map
      (fun e => e.portfolio_id) = [10, 2, 10, 2])
    ∧ ((buildAllocationPlan [(2, 5), (10, 5)] [(2, 3), (10, 7)] false true).takeWhile
        (fun e => e.source_system == some "modify_reversal")).map
        (fun e => e.portfolio_id) = [10, 2]
    ∧ ¬ List.Chain' (fun a b => a < b) ([10, 2] : List ℕ) := by
  refine ⟨by decide, by decide, ?_⟩
  intro h
  rw [List.chain'_cons] at h
  exact absurd h.1 (by omega)

theorem claim_C2_plan_order_witness :
    (([(2, 5), (10, 5)] : QtyMap).map Prod.fst).Nodup
    ∧ ∃ revs reps,
        buildAllocationPlan [(2, 5), (10, 5)] [(2, 3), (10, 7)] false true =
          revs ++ reps
        ∧ revs.Pairwise (fun a b => ¬ pyStrLt b.portfolio_id a.portfolio_id) := by
  refine ⟨by decide, ?_⟩
  obtain ⟨revs, reps, h1, _, _, h4, _⟩ :=
    (claim_C2_plan_order [(2, 5), (10, 5)] [(2, 3), (10, 7)]
      (by decide) (by decide)).1
  exact ⟨revs, reps, h1, h4⟩

/-- A `deal_allocation` row. -/
structure DealAllocation where
  id : ℕ
  block_id : ℕ
  portfolio_id : ℕ
  quantity : ℚ
  is_rounding_adjustment : Bool
  lifecycle : String
deriving DecidableEq, Repr

/-- A `deal_block` row. -/
structure DealBlock where
  id : ℕ
  instrument_id : ℕ
  quantity : ℚ
  price : ℚ
  lifecycle : String
deriving DecidableEq, Repr

/-- The `SELECT portfolio_id, SUM(quantity) ... WHERE block_id = :block_id
AND lifecycle = 'active' GROUP BY portfolio_id` of
`_create_deal_adjustment_stagings`. -/
def currentQtyByPortfolio (allocs : List DealAllocation) (block_id : ℕ) : QtyMap :=
  let matching := allocs.filter
    (fun a => a.block_id == block_id && a.lifecycle == "active")
  ((matching.map (fun a => a.portfolio_id)).dedup).map (fun pid =>
    (pid, ((matching.filter (fun a => a.portfolio_id == pid)).map
      (fun a => a.quantity)).sum))

/-- The `UPDATE deal_allocation SET lifecycle = 'deleted' WHERE block_id =
:block_id AND lifecycle = 'active'`. -/
def markAllocationsDeleted (allocs : List DealAllocation) (block_id : ℕ) :
    List DealAllocation :=
  allocs.map (fun a =>
    if a.block_id == block_id && a.lifecycle == "active" then
      { a with lifecycle := "deleted" }
    else a)

/-- The N `INSERT INTO deal_allocation` statements of the plan loop: row
`idx` carries the plan delta, `is_rounding_adjustment =
(rounding_adjustment_index == idx)`, and lifecycle `deleted` for a
`modify_reversal` entry, else the shared allocation lifecycle (`deleted`
when the whole deal is being deleted, `active` otherwise). -/
def allocRowsOfPlan (block_id : ℕ) (ridx : Option ℕ) (mark_deleted : Bool)
    (next_alloc idx : ℕ) : List PlanEntry → List DealAllocation
  | [] => []
  | e :: rest =>
    { id := next_alloc, block_id := block_id, portfolio_id := e.portfolio_id,
      quantity := e.quantity, is_rounding_adjustment := ridx == some idx,
      lifecycle :=
        if e.source_system = some "modify_reversal" then "deleted"
        else if mark_deleted then "deleted" else "active" }
    :: allocRowsOfPlan block_id ridx mark_deleted (next_alloc + 1) (idx + 1) rest

/-- The allocation-level pending-trade inserts of the plan loop, including
the `report_currency_by_portfolio` lookup that raises `portfolio_not_found`
when a plan portfolio is unknown. -/
def allocStagingRowsOfPlan (portfolios : List (ℕ × String))
    (block_id instrument_id trade_date : ℕ) (settle_date : Option ℕ)
    (quote_currency : String) (price : ℚ) (amounts : List ℚ)
    (next_staging next_alloc : ℕ) :
    List PlanEntry → Except String (List (ℕ × PendingTrade))
  | [] => .ok []
  | e :: rest =>
    match (portfolios.find? (fun p => p.1 == e.portfolio_id)).map
        (fun p => p.2) with
    | none => .error "portfolio_not_found"
    | some rc =>
      match allocStagingRowsOfPlan portfolios block_id instrument_id trade_date
          settle_date quote_currency price amounts.tail (next_staging + 1)
          (next_alloc + 1) rest with
      | .error err => .error err
      | .ok rows =>
        .ok ((next_staging,
          { level := "allocation", deal_block_id := some block_id,
            deal_allocation_id := some next_alloc,
            portfolio_id := some e.portfolio_id, instrument_id := instrument_id,
            trade_date := trade_date, settle_date := settle_date,
            quantity := e.quantity, price := price,
            quote_currency := quote_currency, report_currency := rc,
            qc_gross_amount := some (amounts.headD 0),
            rc_gross_amount :=
              if quote_currency = rc then some (amounts.headD 0) else none,
            status := "entry", lifecycle := "active",
            source_system := e.source_system, entry_version := 1 }) :: rows)

/-- `_create_deal_adjustment_stagings` (`api/staging.py`): compute the
current per-portfolio quantities, mark the block's active allocations
deleted (when modifying or deleting), build the plan, compute the amounts,
insert the block-level pending trade, insert the per-plan `deal_allocation`
rows and allocation-level pending trades, and update the block quantity and
lifecycle.  Returns `(allocations, block, stagings, inserted allocation
rows)`; any error aborts the whole transaction. -/
def create_deal_adjustment_stagings (allocs : List DealAllocation)
    (block : DealBlock) (stagings : StagingTable)
    (portfolios : List (ℕ × String)) (trade_date : ℕ) (settle_date : Option ℕ)
    (quote_currency : String) (price : ℚ) (target : QtyMap)
    (mark_deleted force_reversal_replacement : Bool)
    (next_alloc next_staging : ℕ) :
    Except String (List DealAllocation × DealBlock × StagingTable ×
      List DealAllocation) :=
  let current := currentQtyByPortfolio allocs block.id
  let allocs1 :=
    if mark_deleted ∨ force_reversal_replacement then
      markAllocationsDeleted allocs block.id
    else allocs
  let plan := buildAllocationPlan current target mark_deleted
    force_reversal_replacement
  let amounts := computeBlockAndAllocationAmounts
    (plan.map (fun e => |e.quantity|)) price
  let block_delta_quantity := (plan.map (fun e => e.quantity)).sum
  let blockStaging : PendingTrade :=
    { level := "block", deal_block_id := some block.id,
      deal_allocation_id := none, portfolio_id := none,
      instrument_id := block.instrument_id, trade_date := trade_date,
      settle_date := settle_date, quantity := block_delta_quantity,
      price := price, quote_currency := quote_currency,
      report_currency := quote_currency, qc_gross_amount := some amounts.1,
      rc_gross_amount := some amounts.1, status := "entry",
      lifecycle := "active", source_system := none, entry_version := 1 }
  let newRows := allocRowsOfPlan block.id amounts.2.2 mark_deleted next_alloc 0 plan
  match allocStagingRowsOfPlan portfolios block.id block.instrument_id
      trade_date settle_date quote_currency price amounts.2.1
      (next_staging + 1) next_alloc plan with
  | .error e => .error e
  | .ok allocStagings =>
    let target_block_quantity := (target.map (fun e => e.2)).sum
    let block1 : DealBlock :=
      { block with
        quantity := if mark_deleted then 0 else target_block_quantity,
        lifecycle := if mark_deleted then "deleted" else "active" }
    .ok (allocs1 ++ newRows, block1,
      allocStagings ++ ((next_staging, blockStaging) :: stagings), newRows)

theorem qtyLookup_mem (m : QtyMap) (pid : ℕ) (c : ℚ)
    (h : qtyLookup m pid = some c) : (pid, c) ∈ m := by
  induction m with
  | nil => simp [qtyLookup] at h
  | cons e rest ih =>
    by_cases hc : e.1 = pid
    · have h2 := qtyLookup_cons e.1 e.2 rest pid
      rw [if_pos hc] at h2
      have h3 : qtyLookup (e :: rest) pid = some e.2 := h2
      rw [h3, Option.some.injEq] at h
      have hpe : (pid, c) = e := by rw [← hc, ← h]
      rw [hpe]
      exact List.mem_cons_self _ _
    · have h2 := qtyLookup_cons e.1 e.2 rest pid
      rw [if_neg hc] at h2
      have h3 : qtyLookup (e :: rest) pid = qtyLookup rest pid := h2
      rw [h3] at h
      exact List.mem_cons_of_mem _ (ih h)

theorem mem_allocRowsOfPlan (bid : ℕ) (ridx : Option ℕ) (md : Bool)
    (na idx : ℕ) (plan : List PlanEntry) (r : DealAllocation)
    (h : r ∈ allocRowsOfPlan bid ridx md na idx plan) :
    r.block_id = bid ∧ ∃ e ∈ plan, r.portfolio_id = e.portfolio_id
      ∧ r.quantity = e.quantity
      ∧ r.lifecycle = (if e.source_system = some "modify_reversal" then "deleted"
          else if md then "deleted" else "active") := by
  induction plan generalizing na idx with
  | nil => simp [allocRowsOfPlan] at h
  | cons e rest ih =>
    rw [allocRowsOfPlan] at h
    rcases List.mem_cons.mp h with h1 | h1
    · subst h1
      exact ⟨rfl, e, List.mem_cons_self _ _, rfl, rfl, rfl⟩
    · obtain ⟨hb, e2, he2, hrest⟩ := ih (na + 1) (idx + 1) h1
      exact ⟨hb, e2, List.mem_cons_of_mem _ he2, hrest⟩

theorem exists_allocRow_of_plan_mem (bid : ℕ) (ridx : Option ℕ) (md : Bool)
    (na idx : ℕ) (plan : List PlanEntry) (e : PlanEntry) (he : e ∈ plan) :
    ∃ r ∈ allocRowsOfPlan bid ridx md na idx plan,
      r.block_id = bid ∧ r.portfolio_id = e.portfolio_id
      ∧ r.quantity = e.quantity
      ∧ r.lifecycle = (if e.source_system = some "modify_reversal" then "deleted"
          else if md then "deleted" else "active") := by
  induction plan generalizing na idx with
  | nil => simp at he
  | cons e1 rest ih =>
    rcases List.mem_cons.mp he with h1 | h1
    · subst h1
      refine ⟨_, List.mem_cons_self _ _, rfl, rfl, rfl, rfl⟩
    · obtain ⟨r, hr, hfields⟩ := ih (na + 1) (idx + 1) h1
      exact ⟨r, List.mem_cons_of_mem _ hr, hfields⟩

theorem allocRows_filter_map (bid : ℕ) (ridx : Option ℕ) (na idx : ℕ)
    (plan : List PlanEntry) :
    ((allocRowsOfPlan bid ridx false na idx plan).filter
        (fun r => r.block_id == bid && r.lifecycle == "active")).map
        (fun r => (r.portfolio_id, r.quantity))
    = (plan.filter (fun e => !(e.source_system == some "modify_reversal"))).map
        (fun e => (e.portfolio_id, e.quantity)) := by
  induction plan generalizing na idx with
  | nil => simp [allocRowsOfPlan]
  | cons e rest ih =>
    rw [allocRowsOfPlan, List.filter_cons, List.filter_cons]
    dsimp only
    simp only [Bool.false_eq_true, if_false]
    by_cases hrev : e.source_system = some "modify_reversal"
    · rw [if_pos hrev]
      have h2 : (e.source_system == some "modify_reversal") = true := by
        simp [hrev]
      rw [h2]
      simp only [Bool.not_true, Bool.false_eq_true, if_false]
      have h3 : ((bid == bid) && (("deleted" : String) == "active")) = false := by
        simp
      rw [h3]
      simp only [Bool.false_eq_true, if_false]
      exact ih (na + 1) (idx + 1)
    · rw [if_neg hrev]
      have h2 : (e.source_system == some "modify_reversal") = false := by
        simp [hrev]
      rw [h2]
      simp only [Bool.not_false, if_true]
      have h3 : ((bid == bid) && (("active" : String) == "active")) = true := by
        simp
      rw [h3]
      simp only [if_true]
      rw [List.map_cons, List.map_cons, ih (na + 1) (idx + 1)]

theorem filterMap_eq_map_of {β : Type} (l : List ℕ) (f : ℕ → Option β)
    (g : ℕ → β) (h : ∀ a ∈ l, f a = some (g a)) : l.filterMap f = l.map g := by
  induction l with
  | nil => simp
  | cons a rest ih =>
    rw [List.filterMap_cons_some (h a (List.mem_cons_self _ _)), List.map_cons]
    rw [ih (fun b hb => h b (List.mem_cons_of_mem _ hb))]

theorem map_lookup_values (m : QtyMap) (hnd : (m.map Prod.fst).Nodup) :
    (m.map Prod.fst).map (fun pid => (qtyLookup m pid).getD 0) =
      m.map (fun e => e.2) := by
  induction m with
  | nil => simp
  | cons e rest ih =>
    rw [List.map_cons, List.map_cons, List.map_cons] at *
    rw [List.nodup_cons] at hnd
    obtain ⟨hna, hnr⟩ := hnd
    have hhead : (qtyLookup (e :: rest) e.1).getD 0 = e.2 := by
      have : qtyLookup (e :: rest) e.1 = some e.2 := by
        have := qtyLookup_cons e.1 e.2 rest e.1
        simpa using this
      rw [this]
      rfl
    rw [hhead]
    congr 1
    have hcong : ∀ pid ∈ rest.map Prod.fst,
        (qtyLookup (e :: rest) pid).getD 0 = (qtyLookup rest pid).getD 0 := by
      intro pid hpid
      have hne : e.1 ≠ pid := fun hh => hna (hh ▸ hpid)
      have := qtyLookup_cons e.1 e.2 rest pid
      rw [if_neg hne] at this
      have he : qtyLookup ((e.1, e.2) :: rest) pid = qtyLookup (e :: rest) pid := rfl
      rw [he] at this
      rw [this]
    rw [List.map_congr_left hcong]
    exact ih hnr

theorem markAllocationsDeleted_not_active (allocs : List DealAllocation)
    (bid : ℕ) (a : DealAllocation) (ha : a ∈ markAllocationsDeleted allocs bid)
    (hb : a.block_id = bid) : a.lifecycle ≠ "active" := by
  obtain ⟨b, hbmem, hbeq⟩ := List.mem_map.mp ha
  by_cases hc : b.block_id == bid && b.lifecycle == "active"
  · rw [if_pos hc] at hbeq
    rw [← hbeq]
    simp
  · rw [if_neg hc] at hbeq
    subst hbeq
    intro hact
    apply hc
    simp [hb, hact]

theorem buildAllocationPlan_modify (current target : QtyMap) :
    buildAllocationPlan current target false true =
      segmentPlan current (fun q => -q) "modify_reversal"
      ++ segmentPlan target (fun q => q) "modify_replacement" := by
  rw [buildAllocationPlan, if_pos (by simp)]
  rfl

theorem segmentPlan_map_eq (m : QtyMap) (tag : String)
    (hv : ∀ p q, (p, q) ∈ m → q ≠ 0) :
    (segmentPlan m (fun q => q) tag).map (fun e => (e.portfolio_id, e.quantity))
      = (sortByStr (m.map Prod.fst)).map
          (fun pid => (pid, (qtyLookup m pid).getD 0)) := by
  rw [segmentPlan]
  rw [filterMap_eq_map_of (sortByStr (m.map Prod.fst)) _
    (fun pid => (⟨pid, (qtyLookup m pid).getD 0, some tag⟩ : PlanEntry)) ?_]
  · rw [List.map_map]
    rfl
  · intro pid hpid
    have hpid2 : pid ∈ m.map Prod.fst := (mem_sortByStr _ _).mp hpid
    obtain ⟨c, hc⟩ := qtyLookup_isSome_of_mem m pid hpid2
    have hc0 : c ≠ 0 := hv pid c (qtyLookup_mem m pid c hc)
    simp only [hc, Option.getD_some]
    rw [if_pos hc0]

theorem sum_values_sorted (m : QtyMap) (hnd : (m.map Prod.fst).Nodup) :
    ((sortByStr (m.map Prod.fst)).map (fun pid => (qtyLookup m pid).getD 0)).sum
      = (m.map (fun e => e.2)).sum := by
  have hperm := (sortByStr_perm (m.map Prod.fst)).map
    (fun pid => (qtyLookup m pid).getD 0)
  rw [hperm.sum_eq, map_lookup_values m hnd]

theorem filter_markDeleted_nil (allocs : List DealAllocation) (bid : ℕ) :
    (markAllocationsDeleted allocs bid).filter
      (fun r => r.block_id == bid && r.lifecycle == "active") = [] := by
  rw [List.filter_eq_nil_iff]
  intro a ha
  by_cases hb : a.block_id = bid
  · have := markAllocationsDeleted_not_active allocs bid a ha hb
    simp [this]
  · simp [hb]

theorem map_fst_key_value (l : List ℕ) (f : ℕ → ℚ) :
    ((l.map (fun pid => (pid, f pid))).map Prod.fst) = l := by
  induction l with
  | nil => rfl
  | cons a rest ih => simp [ih]

theorem allocRows_filter_quantities (bid : ℕ) (ridx : Option ℕ) (na idx : ℕ)
    (plan : List PlanEntry) :
    ((allocRowsOfPlan bid ridx false na idx plan).filter
        (fun r => r.block_id == bid && r.lifecycle == "active")).map
        (fun r => r.quantity)
    = (plan.filter (fun e => !(e.source_system == some "modify_reversal"))).map
        (fun e => e.quantity) := by
  have h1 := congrArg (List.map Prod.snd) (allocRows_filter_map bid ridx na idx plan)
  rw [List.map_map, List.map_map] at h1
  exact h1

theorem segmentPlan_quantities (m : QtyMap) (tag : String)
    (hv : ∀ p q, (p, q) ∈ m → q ≠ 0) :
    (segmentPlan m (fun q => q) tag).map (fun e => e.quantity)
      = (sortByStr (m.map Prod.fst)).map (fun pid => (qtyLookup m pid).getD 0) := by
  have h := congrArg (List.map Prod.snd) (segmentPlan_map_eq m tag hv)
  rw [List.map_map, List.map_map] at h
  exact h

theorem filter_not_rev_of_all_rev (seg : List PlanEntry)
    (h : ∀ e ∈ seg, e.source_system = some "modify_reversal") :
    seg.filter (fun e => !(e.source_system == some "modify_reversal")) = [] := by
  rw [List.filter_eq_nil_iff]
  intro e he
  simp [h e he]

theorem filter_not_rev_of_all_rep (seg : List PlanEntry)
    (h : ∀ e ∈ seg, e.source_system = some "modify_replacement") :
    seg.filter (fun e => !(e.source_system == some "modify_reversal")) = seg := by
  rw [List.filter_eq_self]
  intro e he
  simp [h e he]

/-- C10: after a successful deal modify, the `deal_allocation` rows inserted
for `modify_reversal` plan entries are created with `lifecycle = 'deleted'`
and only the `modify_replacement` rows are created active; all pre-existing
allocations of the block are marked deleted; the block quantity is set to
the total target quantity and the block stays active; consequently the
active allocations under the block are exactly the target mapping and the
sum of active allocation quantities equals the block quantity. -/
theorem claim_C10_modify_active_allocations (allocs : List DealAllocation)
    (block : DealBlock) (stagings : StagingTable)
    (portfolios : List (ℕ × String)) (trade_date : ℕ) (settle_date : Option ℕ)
    (quote_currency : String) (price : ℚ) (target : QtyMap)
    (next_alloc next_staging : ℕ) (allocs' : List DealAllocation)
    (block' : DealBlock) (stagings' : StagingTable)
    (newRows : List DealAllocation)
    (htnd : (target.map Prod.fst).Nodup)
    (htv : ∀ p q, (p, q) ∈ target → q ≠ 0)
    (hok : create_deal_adjustment_stagings allocs block stagings portfolios
      trade_date settle_date quote_currency price target false true
      next_alloc next_staging = .ok (allocs', block', stagings', newRows)) :
    (∀ r ∈ newRows, r.block_id = block.id
      ∧ (r.lifecycle = "active" ∨ r.lifecycle = "deleted")
      ∧ (r.lifecycle = "active" → qtyLookup target r.portfolio_id = some r.quantity)
      ∧ (r.lifecycle = "deleted" → ∃ c,
          qtyLookup (currentQtyByPortfolio allocs block.id) r.portfolio_id = some c
          ∧ c ≠ 0 ∧ r.quantity = -c))
    ∧ (∀ a ∈ allocs, a.block_id = block.id → a.lifecycle = "active" →
        { a with lifecycle := "deleted" } ∈ allocs')
    ∧ block'.quantity = (target.map (fun e => e.2)).sum
    ∧ block'.lifecycle = "active"
    ∧ (∀ pid q, (∃ r ∈ allocs', r.block_id = block.id ∧ r.lifecycle = "active"
        ∧ r.portfolio_id = pid ∧ r.quantity = q) ↔ qtyLookup target pid = some q)
    ∧ ((allocs'.filter (fun r => r.block_id == block.id
        && r.lifecycle == "active")).map (fun r => r.quantity)).sum
        = block'.quantity := by
  have hndcur : ((currentQtyByPortfolio allocs block.id).map Prod.fst).Nodup := by
    rw [currentQtyByPortfolio, map_fst_key_value]
    exact List.nodup_dedup _
  simp only [create_deal_adjustment_stagings] at hok
  rw [if_pos (show (false = true) ∨ True from Or.inr trivial)] at hok
  split at hok
  · exact absurd hok (by simp)
  · rw [Except.ok.injEq, Prod.mk.injEq, Prod.mk.injEq, Prod.mk.injEq] at hok
    obtain ⟨h1, h2, h3, h4⟩ := hok
    subst h1
    subst h2
    subst h3
    subst h4
    obtain ⟨hsrcR, _, _, hmemR⟩ := segment_spec
      (currentQtyByPortfolio allocs block.id) (fun q => -q) "modify_reversal" hndcur
    obtain ⟨hsrcP, _, _, hmemP⟩ := segment_spec
      target (fun q => q) "modify_replacement" htnd
    have hrows : ∀ r ∈ allocRowsOfPlan block.id
        (computeBlockAndAllocationAmounts
          ((buildAllocationPlan (currentQtyByPortfolio allocs block.id) target
            false true).map (fun e => |e.quantity|)) price).2.2
        false next_alloc 0
        (buildAllocationPlan (currentQtyByPortfolio allocs block.id) target
          false true),
        r.block_id = block.id
        ∧ (r.lifecycle = "active" ∨ r.lifecycle = "deleted")
        ∧ (r.lifecycle = "active" →
            qtyLookup target r.portfolio_id = some r.quantity)
        ∧ (r.lifecycle = "deleted" → ∃ c,
            qtyLookup (currentQtyByPortfolio allocs block.id) r.portfolio_id
              = some c ∧ c ≠ 0 ∧ r.quantity = -c) := by
      intro r hr
      obtain ⟨hb, e, he, hpid, hqty, hlc⟩ :=
        mem_allocRowsOfPlan _ _ _ _ _ _ r hr
      rw [buildAllocationPlan_modify] at he
      rcases List.mem_append.mp he with he1 | he1
      · have hsrc := hsrcR e he1
        rw [if_pos hsrc] at hlc
        refine ⟨hb, Or.inr hlc, ?_, ?_⟩
        · intro hact
          rw [hlc] at hact
          exact absurd hact (by simp)
        · intro _
          obtain ⟨_, c, hc, hc0, hq⟩ := (hmemR e.portfolio_id e.quantity
            e.source_system).mp he1
          exact ⟨c, by rw [hpid]; exact hc, hc0, by rw [hqty]; exact hq⟩
      · have hsrc := hsrcP e he1
        have hne : ¬(e.source_system = some "modify_reversal") := by
          rw [hsrc]
          simp
        rw [if_neg hne] at hlc
        simp only [Bool.false_eq_true, if_false] at hlc
        refine ⟨hb, Or.inl hlc, ?_, ?_⟩
        · intro _
          obtain ⟨_, c, hc, _, hq⟩ := (hmemP e.portfolio_id e.quantity
            e.source_system).mp he1
          rw [hpid, hqty]
          rw [hq]
          exact hc
        · intro hdel
          rw [hlc] at hdel
          exact absurd hdel (by simp)
    refine ⟨hrows, ?_, by simp, by simp, ?_, ?_⟩
    · intro a ha hb hact
      apply List.mem_append_left
      refine List.mem_map.mpr ⟨a, ha, ?_⟩
      rw [if_pos (by simp [hb, hact])]
    · intro pid q
      constructor
      · rintro ⟨r, hr, hrb, hract, hrpid, hrq⟩
        rcases List.mem_append.mp hr with hr1 | hr1
        · exact absurd hract
            (markAllocationsDeleted_not_active allocs block.id r hr1 hrb)
        · obtain ⟨_, _, hactlook, _⟩ := hrows r hr1
          have := hactlook hract
          rw [hrpid, hrq] at this
          exact this
      · intro hlook
        have hq0 : q ≠ 0 := htv pid q (qtyLookup_mem target pid q hlook)
        have hmemT := (hmemP pid q (some "modify_replacement")).mpr
          ⟨rfl, q, hlook, hq0, rfl⟩
        have hplanmem : (⟨pid, q, some "modify_replacement"⟩ : PlanEntry) ∈
            buildAllocationPlan (currentQtyByPortfolio allocs block.id) target
              false true := by
          rw [buildAllocationPlan_modify]
          exact List.mem_append_right _ hmemT
        obtain ⟨r, hrmem, hrb, hrpid, hrq, hrlc⟩ :=
          exists_allocRow_of_plan_mem block.id _ false next_alloc 0 _ _ hplanmem
        refine ⟨r, List.mem_append_right _ hrmem, hrb, ?_, hrpid, hrq⟩
        rw [hrlc]
        rw [if_neg (by simp)]
        simp
    · rw [List.filter_append, List.map_append, List.sum_append]
      rw [filter_markDeleted_nil]
      simp only [List.map_nil, List.sum_nil, zero_add]
      rw [allocRows_filter_quantities]
      rw [buildAllocationPlan_modify, List.filter_append]
      rw [filter_not_rev_of_all_rev _ hsrcR, filter_not_rev_of_all_rep _ hsrcP]
      simp only [List.nil_append]
      rw [segmentPlan_quantities target "modify_replacement" htv]
      rw [sum_values_sorted target htnd]
      simp

theorem claim_C4_state_machine_guard_witness :
    stagingLookup [(1, sampleTrade)] 1 = some sampleTrade
    ∧ advance_status [(1, sampleTrade)] 1 "entry" "pre_check" =
        .ok (stagingUpdate [(1, sampleTrade)] 1
          { sampleTrade with status := "pre_check", entry_version := 2 }) := by
  have hlook : stagingLookup [(1, sampleTrade)] 1 = some sampleTrade := by
    simp [stagingLookup]
  refine ⟨hlook, ?_⟩
  exact ((claim_C4_state_machine_guard [(1, sampleTrade)] 1 "entry" "pre_check"
    sampleTrade hlook).1 ⟨rfl, rfl⟩).1

/-- Witness for C10: a concrete modify of a one-allocation block (current
{7: 5}, target {8: 5}) succeeds, and the resulting block carries quantity 5,
lifecycle `active`, with the active allocations of the block summing to the
block quantity. -/
theorem claim_C10_modify_active_allocations_witness :
    ∃ allocs2 block2 stagings2 newRows2,
      create_deal_adjustment_stagings
        [{ id := 1, block_id := 1, portfolio_id := 7, quantity := 5,
           is_rounding_adjustment := false, lifecycle := "active" }]
        { id := 1, instrument_id := 3, quantity := 5, price := 2,
          lifecycle := "active" }
        [] [(7, "USD"), (8, "USD")] 10 none "USD" 2 [(8, 5)] false true 2 1
        = .ok (allocs2, block2, stagings2, newRows2)
      ∧ block2.quantity = 5
      ∧ block2.lifecycle = "active"
      ∧ ((allocs2.filter (fun r => r.block_id == 1
          && r.lifecycle == "active")).map (fun r => r.quantity)).sum
          = block2.quantity := by
  have hcur : currentQtyByPortfolio
      [{ id := 1, block_id := 1, portfolio_id := 7, quantity := 5,
         is_rounding_adjustment := false, lifecycle := "active" }] 1
      = [(7, (5:ℚ))] := by
    norm_num [currentQtyByPortfolio, List.filter, List.dedup_cons_of_not_mem,
      List.dedup_nil]
  have hplan : buildAllocationPlan [(7, (5:ℚ))] [(8, (5:ℚ))] false true
      = [⟨7, -5, some "modify_reversal"⟩, ⟨8, 5, some "modify_replacement"⟩] := by
    norm_num [buildAllocationPlan, sortByStr, insertByStr, qtyLookup, List.find?,
      List.filterMap_cons, List.filterMap_nil]
  have hstg : ∀ A : List ℚ,
      allocStagingRowsOfPlan [(7, "USD"), (8, "USD")] 1 3 10 none "USD" 2 A 2 2
        [⟨7, -5, some "modify_reversal"⟩, ⟨8, 5, some "modify_replacement"⟩]
      = .ok [(2,
          { level := "allocation", deal_block_id := some 1,
            deal_allocation_id := some 2, portfolio_id := some 7,
            instrument_id := 3, trade_date := 10, settle_date := none,
            quantity := -5, price := 2, quote_currency := "USD",
            report_currency := "USD", qc_gross_amount := some (A.headD 0),
            rc_gross_amount := some (A.headD 0), status := "entry",
            lifecycle := "active", source_system := some "modify_reversal",
            entry_version := 1 }),
        (3,
          { level := "allocation", deal_block_id := some 1,
            deal_allocation_id := some 3, portfolio_id := some 8,
            instrument_id := 3, trade_date := 10, settle_date := none,
            quantity := 5, price := 2, quote_currency := "USD",
            report_currency := "USD", qc_gross_amount := some (A.tail.headD 0),
            rc_gross_amount := some (A.tail.headD 0), status := "entry",
            lifecycle := "active", source_system := some "modify_replacement",
            entry_version := 1 })] := by
    intro A
    simp [allocStagingRowsOfPlan, List.find?]
  have hEx : ∃ res, create_deal_adjustment_stagings
      [{ id := 1, block_id := 1, portfolio_id := 7, quantity := 5,
         is_rounding_adjustment := false, lifecycle := "active" }]
      { id := 1, instrument_id := 3, quantity := 5, price := 2,
        lifecycle := "active" }
      [] [(7, "USD"), (8, "USD")] 10 none "USD" 2 [(8, 5)] false true 2 1
      = .ok res := by
    simp only [create_deal_adjustment_stagings, hcur, hplan]
    split
    next e heq =>
      rw [hstg _] at heq
      simp at heq
    next rows heq =>
      exact ⟨_, rfl⟩
  obtain ⟨res, hc⟩ := hEx
  obtain ⟨a1, b1, s1, n1⟩ := res
  have H := claim_C10_modify_active_allocations _ _ _ _ _ _ _ _ _ _ _ a1 b1 s1 n1
    (by simp)
    (by
      intro p q hm
      rw [List.mem_singleton] at hm
      have h5 : q = 5 := (Prod.ext_iff.mp hm).2
      rw [h5]
      norm_num)
    hc
  refine ⟨a1, b1, s1, n1, hc, ?_, H.2.2.2.1, ?_⟩
  · have hq := H.2.2.1
    rw [hq]
    norm_num
  · exact H.2.2.2.2.2

/-! ## IBOR NAV computation (`nav/service.py`) -/

/-- A `market_price` row (only the columns `compute_ibor_nav` reads). -/
structure MarketPriceRow where
  instrument_id : ℕ
  price : ℚ
  currency : String
  asof_ts : ℕ
  is_eod : Bool
deriving DecidableEq, Repr

/-- An `fx_rate` row. -/
structure FxRateRow where
  base_currency : String
  quote_currency : String
  rate : ℚ
  asof_ts : ℕ
  is_eod : Bool
deriving DecidableEq, Repr

/-- The `NavLine` dataclass of `nav/service.py`. -/
structure NavLine where
  instrument_id : ℕ
  quantity : ℚ
  price : Option ℚ
  price_currency : Option String
  fx_rate_to_rc : Option ℚ
  market_value_rc : ℚ
deriving DecidableEq, Repr

/-- `ORDER BY asof_ts DESC LIMIT 1` / `DISTINCT ON`: the first row attaining
the maximal timestamp. -/
def bestByTs {α : Type} (ts : α → ℕ) : List α → Option α
  | [] => none
  | r :: rest =>
    match bestByTs ts rest with
    | none => some r
    | some b => if ts r < ts b then some b else some r

/-- The candidate rows of `_get_prices_distinct_on` for one instrument:
`instrument_id = iid AND asof_ts <= :asof_ts` — any `asof_date`, any
`is_eod` (the `compute_ibor_nav` call passes `asof_date=None`,
`eod_only=False`). -/
def priceCands (prices : List MarketPriceRow) (iid t : ℕ) :
    List MarketPriceRow :=
  prices.filter (fun r => r.instrument_id == iid && decide (r.asof_ts ≤ t))

def priceLookup (prices : List MarketPriceRow) (iid t : ℕ) :
    Option MarketPriceRow :=
  bestByTs (fun r => r.asof_ts) (priceCands prices iid t)

/-- The candidate rows of `_get_fx_rate` (`eod_only=False`: any `is_eod`). -/
def fxCands (fxs : List FxRateRow) (b q : String) (t : ℕ) : List FxRateRow :=
  fxs.filter (fun r =>
    r.base_currency == b && r.quote_currency == q && decide (r.asof_ts ≤ t))

/-- `_get_fx_rate`: `1` when base = quote, else the most recent rate at
`asof_ts <= :asof_ts`, else `fx_rate_missing:{base}->{quote}`. -/
def get_fx_rate (fxs : List FxRateRow) (b q : String) (t : ℕ) :
    Except String ℚ :=
  if b = q then .ok 1
  else
    match bestByTs (fun r => r.asof_ts) (fxCands fxs b q t) with
    | none => .error ("fx_rate_missing:" ++ b ++ "->" ++ q)
    | some r => .ok r.rate

/-- `instr_types.get(iid)` over the `instrument` table projection. -/
def typeLookup (types : List (ℕ × String)) (iid : ℕ) : Option String :=
  (types.find? (fun e => e.1 == iid)).map (fun e => e.2)

/-- `compute_ibor_nav` (`nav/service.py`): one `NavLine` per position row,
in order; a `cash` instrument contributes `market_value_rc = quantity` with
price 1 and fx 1; any other contributes `quantity × price × fx` from the
most recent price and fx lookups; `nav_rc` is the running total. -/
def compute_ibor_nav (types : List (ℕ × String))
    (prices : List MarketPriceRow) (fxs : List FxRateRow)
    (rc : String) (t : ℕ) :
    List (ℕ × ℚ) → Except String (List NavLine × ℚ)
  | [] => .ok ([], 0)
  | (iid, qty) :: rest =>
    if typeLookup types iid = some "cash" then
      match compute_ibor_nav types prices fxs rc t rest with
      | .error e => .error e
      | .ok (ls, tot) =>
        .ok ({ instrument_id := iid, quantity := qty, price := some 1,
               price_currency := some rc, fx_rate_to_rc := some 1,
               market_value_rc := qty } :: ls, qty + tot)
    else
      match priceLookup prices iid t with
      | none => .error ("price_missing:" ++ toString iid)
      | some r =>
        match get_fx_rate fxs r.currency rc t with
        | .error e => .error e
        | .ok fx =>
          match compute_ibor_nav types prices fxs rc t rest with
          | .error e => .error e
          | .ok (ls, tot) =>
            .ok ({ instrument_id := iid, quantity := qty,
                   price := some r.price, price_currency := some r.currency,
                   fx_rate_to_rc := some fx,
                   market_value_rc := qty * r.price * fx } :: ls,
              qty * r.price * fx + tot)

/-- What C8 asserts of one emitted NAV line. -/
def navLineSpec (types : List (ℕ × String)) (prices : List MarketPriceRow)
    (fxs : List FxRateRow) (rc : String) (t : ℕ) (l : NavLine) : Prop :=
  (typeLookup types l.instrument_id = some "cash" →
    l.price = some 1 ∧ l.price_currency = some rc ∧ l.fx_rate_to_rc = some 1
    ∧ l.market_value_rc = l.quantity)
  ∧ (typeLookup types l.instrument_id ≠ some "cash" →
    ∃ r fx, r ∈ prices ∧ r.instrument_id = l.instrument_id ∧ r.asof_ts ≤ t
      ∧ (∀ r2 ∈ prices, r2.instrument_id = l.instrument_id →
          r2.asof_ts ≤ t → r2.asof_ts ≤ r.asof_ts)
      ∧ l.price = some r.price ∧ l.price_currency = some r.currency
      ∧ l.fx_rate_to_rc = some fx
      ∧ (if r.currency = rc then fx = 1
         else ∃ f, f ∈ fxs ∧ f.base_currency = r.currency
           ∧ f.quote_currency = rc ∧ f.asof_ts ≤ t ∧ f.rate = fx
           ∧ ∀ f2 ∈ fxs, f2.base_currency = r.currency →
               f2.quote_currency = rc → f2.asof_ts ≤ t →
               f2.asof_ts ≤ f.asof_ts)
      ∧ l.market_value_rc = l.quantity * r.price * fx)

theorem bestByTs_none {α : Type} (ts : α → ℕ) (l : List α)
    (h : bestByTs ts l = none) : l = [] := by
  cases l with
  | nil => rfl
  | cons r rest =>
    exfalso
    simp only [bestByTs] at h
    cases hb : bestByTs ts rest with
    | none => simp only [hb] at h; exact Option.noConfusion h
    | some b =>
      simp only [hb] at h
      split at h
      · exact Option.noConfusion h
      · exact Option.noConfusion h

theorem bestByTs_mem {α : Type} (ts : α → ℕ) (l : List α) (r : α)
    (h : bestByTs ts l = some r) : r ∈ l := by
  induction l with
  | nil => simp [bestByTs] at h
  | cons a rest ih =>
    simp only [bestByTs] at h
    cases hb : bestByTs ts rest with
    | none =>
      simp only [hb, Option.some.injEq] at h
      subst h
      exact List.mem_cons_self _ _
    | some b =>
      simp only [hb] at h
      by_cases hlt : ts a < ts b
      · rw [if_pos hlt, Option.some.injEq] at h
        subst h
        exact List.mem_cons_of_mem _ (ih hb)
      · rw [if_neg hlt, Option.some.injEq] at h
        subst h
        exact List.mem_cons_self _ _

theorem bestByTs_maximal {α : Type} (ts : α → ℕ) (l : List α) (r : α)
    (h : bestByTs ts l = some r) : ∀ x ∈ l, ts x ≤ ts r := by
  suffices H : ∀ r2, bestByTs ts l = some r2 → ∀ x ∈ l, ts x ≤ ts r2 from
    H r h
  clear h
  induction l with
  | nil =>
    intro r2 h
    simp [bestByTs] at h
  | cons a rest ih =>
    intro r2 h
    simp only [bestByTs] at h
    cases hb : bestByTs ts rest with
    | none =>
      have hnil : rest = [] := bestByTs_none ts rest hb
      subst hnil
      simp only [hb, Option.some.injEq] at h
      subst h
      intro x hx
      rw [List.mem_singleton] at hx
      subst hx
      exact le_refl _
    | some b =>
      simp only [hb] at h
      by_cases hlt : ts a < ts b
      · rw [if_pos hlt, Option.some.injEq] at h
        subst h
        intro x hx
        rcases List.mem_cons.mp hx with hxa | hxr
        · subst hxa
          omega
        · exact ih b hb x hxr
      · rw [if_neg hlt, Option.some.injEq] at h
        subst h
        intro x hx
        rcases List.mem_cons.mp hx with hxa | hxr
        · subst hxa
          exact le_refl _
        · have h1 := ih b hb x hxr
          omega

/-- C8: `compute_ibor_nav` emits one line per position in order; a cash
instrument contributes `market_value_rc = quantity` with price 1 and fx 1;
every other position contributes `quantity × price × fx` where the price is
the most recent `market_price` row with `asof_ts ≤ t` (any `is_eod`) and the
fx rate the most recent `fx_rate` row from the price currency to the report
currency at `asof_ts ≤ t` (1 when they coincide); the computation fails with
`price_missing:{iid}` or `fx_rate_missing:{base}->{quote}` exactly when such
a lookup is empty, and `nav_rc` is the sum of the line market values. -/
theorem claim_C8_ibor_nav (types : List (ℕ × String))
    (prices : List MarketPriceRow) (fxs : List FxRateRow)
    (rc : String) (t : ℕ) (ps : List (ℕ × ℚ)) :
    (∀ lines nav,
      compute_ibor_nav types prices fxs rc t ps = .ok (lines, nav) →
      lines.map (fun l => (l.instrument_id, l.quantity)) = ps
      ∧ nav = (lines.map (fun l => l.market_value_rc)).sum
      ∧ ∀ l ∈ lines, navLineSpec types prices fxs rc t l)
    ∧ (∀ msg, compute_ibor_nav types prices fxs rc t ps = .error msg →
      (∃ iid, msg = "price_missing:" ++ toString iid
        ∧ iid ∈ ps.map Prod.fst
        ∧ typeLookup types iid ≠ some "cash"
        ∧ priceCands prices iid t = [])
      ∨ (∃ b, msg = "fx_rate_missing:" ++ b ++ "->" ++ rc
        ∧ b ≠ rc ∧ fxCands fxs b rc t = [])) := by
  induction ps with
  | nil =>
    constructor
    · intro lines nav h
      simp only [compute_ibor_nav, Except.ok.injEq, Prod.mk.injEq] at h
      obtain ⟨h1, h2⟩ := h
      subst h1
      subst h2
      exact ⟨rfl, rfl, by simp⟩
    · intro msg h
      simp only [compute_ibor_nav] at h
      exact Except.noConfusion h
  | cons p rest ih =>
    obtain ⟨iid, qty⟩ := p
    constructor
    · intro lines nav h
      simp only [compute_ibor_nav] at h
      by_cases hcash : typeLookup types iid = some "cash"
      · rw [if_pos hcash] at h
        cases hrec : compute_ibor_nav types prices fxs rc t rest with
        | error e =>
          simp only [hrec] at h
          exact Except.noConfusion h
        | ok pr =>
          obtain ⟨ls, tot⟩ := pr
          simp only [hrec, Except.ok.injEq, Prod.mk.injEq] at h
          obtain ⟨h1, h2⟩ := h
          subst h1
          subst h2
          obtain ⟨ihmap, ihsum, ihspec⟩ := ih.1 ls tot hrec
          refine ⟨?_, ?_, ?_⟩
          · rw [List.map_cons, ihmap]
          · rw [List.map_cons, List.sum_cons, ← ihsum]
          · intro l hl
            rcases List.mem_cons.mp hl with hl1 | hl2
            · subst hl1
              unfold navLineSpec
              exact ⟨fun _ => ⟨rfl, rfl, rfl, rfl⟩,
                fun hne => absurd hcash hne⟩
            · exact ihspec l hl2
      · rw [if_neg hcash] at h
        cases hpl : priceLookup prices iid t with
        | none =>
          simp only [hpl] at h
          exact Except.noConfusion h
        | some r =>
          simp only [hpl] at h
          cases hfx : get_fx_rate fxs r.currency rc t with
          | error e =>
            simp only [hfx] at h
            exact Except.noConfusion h
          | ok fx =>
            simp only [hfx] at h
            cases hrec : compute_ibor_nav types prices fxs rc t rest with
            | error e =>
              simp only [hrec] at h
              exact Except.noConfusion h
            | ok pr =>
              obtain ⟨ls, tot⟩ := pr
              simp only [hrec, Except.ok.injEq, Prod.mk.injEq] at h
              obtain ⟨h1, h2⟩ := h
              subst h1
              subst h2
              obtain ⟨ihmap, ihsum, ihspec⟩ := ih.1 ls tot hrec
              have hrmem := bestByTs_mem _ _ _ hpl
              simp only [priceCands, List.mem_filter, Bool.and_eq_true,
                beq_iff_eq, decide_eq_true_eq] at hrmem
              obtain ⟨hrp, hriid, hrts⟩ := hrmem
              have hrmax : ∀ r2 ∈ prices, r2.instrument_id = iid →
                  r2.asof_ts ≤ t → r2.asof_ts ≤ r.asof_ts := by
                intro r2 h2m h2i h2t
                apply bestByTs_maximal _ _ _ hpl
                simp only [priceCands, List.mem_filter, Bool.and_eq_true,
                  beq_iff_eq, decide_eq_true_eq]
                exact ⟨h2m, h2i, h2t⟩
              have hfxfact : if r.currency = rc then fx = 1
                  else ∃ f, f ∈ fxs ∧ f.base_currency = r.currency
                    ∧ f.quote_currency = rc ∧ f.asof_ts ≤ t ∧ f.rate = fx
                    ∧ ∀ f2 ∈ fxs, f2.base_currency = r.currency →
                        f2.quote_currency = rc → f2.asof_ts ≤ t →
                        f2.asof_ts ≤ f.asof_ts := by
                simp only [get_fx_rate] at hfx
                by_cases hbq : r.currency = rc
                · rw [if_pos hbq] at hfx
                  rw [Except.ok.injEq] at hfx
                  rw [if_pos hbq]
                  exact hfx.symm
                · rw [if_neg hbq] at hfx
                  rw [if_neg hbq]
                  cases hbf : bestByTs (fun f => f.asof_ts)
                      (fxCands fxs r.currency rc t) with
                  | none =>
                    simp only [hbf] at hfx
                    exact Except.noConfusion hfx
                  | some f =>
                    simp only [hbf, Except.ok.injEq] at hfx
                    have hfmem := bestByTs_mem _ _ _ hbf
                    simp only [fxCands, List.mem_filter, Bool.and_eq_true,
                      beq_iff_eq, decide_eq_true_eq] at hfmem
                    obtain ⟨hf1, ⟨hfb, hfq⟩, hft⟩ := hfmem
                    refine ⟨f, hf1, hfb, hfq, hft, hfx, ?_⟩
                    intro f2 hf2m hf2b hf2q hf2t
                    apply bestByTs_maximal _ _ _ hbf
                    simp only [fxCands, List.mem_filter, Bool.and_eq_true,
                      beq_iff_eq, decide_eq_true_eq]
                    exact ⟨hf2m, ⟨hf2b, hf2q⟩, hf2t⟩
              refine ⟨?_, ?_, ?_⟩
              · rw [List.map_cons, ihmap]
              · rw [List.map_cons, List.sum_cons, ← ihsum]
              · intro l hl
                rcases List.mem_cons.mp hl with hl1 | hl2
                · subst hl1
                  unfold navLineSpec
                  exact ⟨fun hc => absurd hc hcash,
                    fun _ => ⟨r, fx, hrp, hriid, hrts, hrmax, rfl, rfl, rfl,
                      hfxfact, rfl⟩⟩
                · exact ihspec l hl2
    · intro msg h
      simp only [compute_ibor_nav] at h
      by_cases hcash : typeLookup types iid = some "cash"
      · rw [if_pos hcash] at h
        cases hrec : compute_ibor_nav types prices fxs rc t rest with
        | error e =>
          simp only [hrec, Except.error.injEq] at h
          subst h
          rcases ih.2 e hrec with hL | hR
          · obtain ⟨iid2, hm, hmem, hty, hpc⟩ := hL
            refine Or.inl ⟨iid2, hm, ?_, hty, hpc⟩
            rw [List.map_cons]
            exact List.mem_cons_of_mem _ hmem
          · exact Or.inr hR
        | ok pr =>
          obtain ⟨ls, tot⟩ := pr
          simp only [hrec] at h
          exact Except.noConfusion h
      · rw [if_neg hcash] at h
        cases hpl : priceLookup prices iid t with
        | none =>
          simp only [hpl, Except.error.injEq] at h
          subst h
          refine Or.inl ⟨iid, rfl, ?_, hcash, bestByTs_none _ _ hpl⟩
          rw [List.map_cons]
          exact List.mem_cons_self _ _
        | some r =>
          simp only [hpl] at h
          cases hfx : get_fx_rate fxs r.currency rc t with
          | error e =>
            simp only [hfx, Except.error.injEq] at h
            subst h
            simp only [get_fx_rate] at hfx
            by_cases hbq : r.currency = rc
            · rw [if_pos hbq] at hfx
              exact Except.noConfusion hfx
            · rw [if_neg hbq] at hfx
              cases hbf : bestByTs (fun f => f.asof_ts)
                  (fxCands fxs r.currency rc t) with
              | none =>
                simp only [hbf, Except.error.injEq] at hfx
                subst hfx
                exact Or.inr ⟨r.currency, rfl, hbq, bestByTs_none _ _ hbf⟩
              | some f =>
                simp only [hbf] at hfx
                exact Except.noConfusion hfx
          | ok fx =>
            simp only [hfx] at h
            cases hrec : compute_ibor_nav types prices fxs rc t rest with
            | error e =>
              simp only [hrec, Except.error.injEq] at h
              subst h
              rcases ih.2 e hrec with hL | hR
              · obtain ⟨iid2, hm, hmem, hty, hpc⟩ := hL
                refine Or.inl ⟨iid2, hm, ?_, hty, hpc⟩
                rw [List.map_cons]
                exact List.mem_cons_of_mem _ hmem
              · exact Or.inr hR
            | ok pr =>
              obtain ⟨ls, tot⟩ := pr
              simp only [hrec] at h
              exact Except.noConfusion h

theorem claim_C8_ibor_nav_witness :
    ∃ lines nav, compute_ibor_nav [(1, "cash"), (2, "equity")]
      [⟨2, 4, "EUR", 5, true⟩, ⟨2, 6, "EUR", 8, false⟩]
      [⟨"EUR", "USD", 2, 7, false⟩] "USD" 9 [(1, 10), (2, 3)]
      = .ok (lines, nav)
    ∧ lines.map (fun l => (l.instrument_id, l.quantity)) = [(1, 10), (2, 3)]
    ∧ nav = (lines.map (fun l => l.market_value_rc)).sum
    ∧ nav = 46 := by
  have hc : compute_ibor_nav [(1, "cash"), (2, "equity")]
      [⟨2, 4, "EUR", 5, true⟩, ⟨2, 6, "EUR", 8, false⟩]
      [⟨"EUR", "USD", 2, 7, false⟩] "USD" 9 [(1, 10), (2, 3)]
      = .ok ([⟨1, 10, some 1, some "USD", some 1, 10⟩,
              ⟨2, 3, some 6, some "EUR", some 2, 36⟩], 46) := by
    norm_num [compute_ibor_nav, typeLookup, priceLookup, priceCands, fxCands,
      get_fx_rate, bestByTs, List.find?, List.filter]
    have h2 : ¬ (typeLookup [(1, "cash"), (2, "equity")] 2 = some "cash") := by
      decide
    have h1 : ¬ ("EUR" = "USD") := by decide
    rw [if_neg h2, if_neg h1]
    norm_num
  have H := (claim_C8_ibor_nav [(1, "cash"), (2, "equity")]
      [⟨2, 4, "EUR", 5, true⟩, ⟨2, 6, "EUR", 8, false⟩]
      [⟨"EUR", "USD", 2, 7, false⟩] "USD" 9 [(1, 10), (2, 3)]).1 _ _ hc
  exact ⟨_, _, hc, H.1, H.2.1, rfl⟩

/-! ## Corporate actions (`ca_process_event_activity`, `temporal/activities.py`) -/

/-- A `ca_event` row (the columns the activity reads). -/
structure CAEvent where
  id : ℕ
  ca_type : String
  instrument_id : ℕ
  require_election : Bool
  cash_amount_per_share : ℚ
  split_numerator : ℚ
  split_denominator : ℚ
  currency : Option String
  ex_date : ℕ
  pay_date : Option ℕ
  status : String
  lifecycle : String
deriving DecidableEq, Repr

/-- An `instrument` row (the columns `_get_or_create_cash_instrument_id`
touches). -/
structure InstrumentRow where
  id : ℕ
  instrument_type : String
  security_id : String
  currency : String
deriving DecidableEq, Repr

/-- A `ca_effect` row: `(ca_event_id, portfolio_id)` unique. -/
structure CAEffectRow where
  ca_event_id : ℕ
  portfolio_id : ℕ
  cash_amount : ℚ
  share_delta : ℚ
  acct_transaction_id : Option ℕ
deriving DecidableEq, Repr

/-- The database slice `ca_process_event_activity` works on. -/
structure CAState where
  events : List CAEvent
  positions : PositionTable
  instruments : List InstrumentRow
  portfolios : List (ℕ × String)
  rules : List (ℕ × String × Bool)
  elections : List (ℕ × ℕ × String)
  effects : List CAEffectRow
  transactions : List AcctTransaction
  entries : List AcctEntry
  idem : IdemTable
  next_txn_id : ℕ
  next_instr_id : ℕ
deriving DecidableEq, Repr

def caEventLookup (evs : List CAEvent) (eid : ℕ) : Option CAEvent :=
  evs.find? (fun e => e.id == eid)

/-- `UPDATE ca_event SET status = 'processed' WHERE id = :eid`. -/
def caEventSetProcessed (evs : List CAEvent) (eid : ℕ) : List CAEvent :=
  evs.map (fun e => if e.id == eid then { e with status := "processed" } else e)

def portLookup (ports : List (ℕ × String)) (pid : ℕ) : Option String :=
  (ports.find? (fun p => p.1 == pid)).map (fun p => p.2)

def ruleLookup (rules : List (ℕ × String × Bool)) (pid : ℕ) (ty : String) :
    Option Bool :=
  (rules.find? (fun r => r.1 == pid && r.2.1 == ty)).map (fun r => r.2.2)

def electionLookup (els : List (ℕ × ℕ × String)) (eid pid : ℕ) :
    Option String :=
  (els.find? (fun e => e.1 == eid && e.2.1 == pid)).map (fun e => e.2.2)

def effectLookup (effs : List CAEffectRow) (eid pid : ℕ) : Option CAEffectRow :=
  effs.find? (fun r => r.ca_event_id == eid && r.portfolio_id == pid)

/-- The final `UPDATE ca_effect ... WHERE ca_event_id = :eid AND
portfolio_id = :pid`. -/
def effectUpdate (effs : List CAEffectRow) (eid pid : ℕ) (cash delta : ℚ)
    (txn : ℕ) : List CAEffectRow :=
  effs.map (fun r =>
    if r.ca_event_id == eid && r.portfolio_id == pid then
      { r with
        cash_amount := cash, share_delta := delta,
        acct_transaction_id := some txn }
    else r)

/-- The holders query: positions of the event instrument with nonzero
quantity. -/
def holdersOf (ps : PositionTable) (iid : ℕ) : List (ℕ × ℚ) :=
  (ps.filter (fun e => e.1.2 == iid && !(e.2 == 0))).map (fun e => (e.1.1, e.2))

/-- The `UPDATE position_current SET quantity = quantity + :dq` of the
stock-split branch. -/
def posAdd (ps : PositionTable) (pid iid : ℕ) (dq : ℚ) : PositionTable :=
  ps.map (fun e => if e.1 = (pid, iid) then (e.1, e.2 + dq) else e)

/-- `_get_or_create_cash_instrument_id`: find the cash instrument whose
`security_id` is `CASH_{ccy}`, else insert one. -/
def get_or_create_cash_instrument_id (instrs : List InstrumentRow)
    (next_id : ℕ) (ccy : String) : ℕ × List InstrumentRow × ℕ :=
  match instrs.find? (fun r =>
      r.instrument_type == "cash" && r.security_id == ("CASH_" ++ ccy)) with
  | some r => (r.id, instrs, next_id)
  | none =>
    (next_id,
     instrs ++ [{
       id := next_id, instrument_type := "cash",
       security_id := "CASH_" ++ ccy, currency := ccy }],
     next_id + 1)

/-- The effective election requirement: the event flag, OR-ed with the
portfolio rule when a `ca_portfolio_rule` row exists. -/
def ca_required_election (rules : List (ℕ × String × Bool)) (ev : CAEvent)
    (pid : ℕ) : Bool :=
  match ruleLookup rules pid ev.ca_type with
  | some b => ev.require_election || b
  | none => ev.require_election

/-- The election gate: a holder is processed unless election is required
and its `ca_election` choice is not `accept`. -/
def ca_gate_passes (st : CAState) (ev : CAEvent) (eid pid : ℕ) : Bool :=
  !(ca_required_election st.rules ev pid) ||
    (electionLookup st.elections eid pid == some "accept")

/-- The per-holder body of the loop in `ca_process_event_activity`:
election gate, `ca_effect` claim (`ON CONFLICT DO NOTHING`),
`acct_transaction` insert, the per-type effect (cash-dividend credit /
stock-split adjustment), and the final `ca_effect` update. -/
def ca_process_holder (ev : CAEvent) (eid : ℕ) (st : CAState)
    (pid : ℕ) (shares : ℚ) : Except String (ℕ × CAState) :=
  if ca_gate_passes st ev eid pid = false then .ok (0, st)
  else if (effectLookup st.effects eid pid).isSome then .ok (0, st)
  else
    let txn := st.next_txn_id
    let st1 := { st with
      effects := ({
        ca_event_id := eid, portfolio_id := pid,
        cash_amount := 0, share_delta := 0,
        acct_transaction_id := none } : CAEffectRow) :: st.effects,
      transactions := ({
        id := txn, staging_id := none,
        deal_block_id := none, deal_allocation_id := none,
        effective_date := ev.pay_date.getD ev.ex_date,
        description := "ca:" ++ ev.ca_type, trade_type := "BUY",
        entry_role := "normal", reversal_of_id := none,
        replacement_of_id := none } : AcctTransaction) :: st.transactions,
      next_txn_id := txn + 1 }
    if ev.ca_type = "cash_dividend" then
      let cash := shares * ev.cash_amount_per_share
      match (match ev.currency with
        | some c => some c
        | none => portLookup st1.portfolios pid) with
      | none => .error "portfolio_not_found"
      | some ccy =>
        match get_or_create_cash_instrument_id st1.instruments
            st1.next_instr_id ccy with
        | (ci, instrs2, ni2) =>
          .ok (1, { st1 with
            instruments := instrs2, next_instr_id := ni2,
            positions := posUpsert st1.positions pid ci cash,
            entries :=
              ({
                acct_transaction_id := txn, portfolio_id := some pid,
                instrument_id := ci, account_code := "CASH", drcr := "DR",
                quantity := some cash, amount := cash,
                currency := ccy } : AcctEntry)
              :: ({
                acct_transaction_id := txn, portfolio_id := some pid,
                instrument_id := ev.instrument_id,
                account_code := "DIVIDEND_INCOME", drcr := "CR",
                quantity := none, amount := cash,
                currency := ccy } : AcctEntry)
              :: st1.entries,
            effects := effectUpdate st1.effects eid pid cash 0 txn })
    else if ev.ca_type = "stock_split" then
      let ratio := ev.split_numerator / ev.split_denominator
      let delta := shares * ratio - shares
      match portLookup st1.portfolios pid with
      | none => .error "portfolio_not_found"
      | some rcy =>
        .ok (1, { st1 with
          positions := posAdd st1.positions pid ev.instrument_id delta,
          entries := ({
            acct_transaction_id := txn, portfolio_id := some pid,
            instrument_id := ev.instrument_id, account_code := "STOCK_SPLIT",
            drcr := if delta ≥ 0 then "DR" else "CR",
            quantity := some delta, amount := 0,
            currency := rcy } : AcctEntry)
            :: st1.entries,
          effects := effectUpdate st1.effects eid pid 0 delta txn })
    else
      .ok (1, { st1 with effects := effectUpdate st1.effects eid pid 0 0 txn })

/-- The holder loop: left-to-right, counting processed portfolios. -/
def processHolders (ev : CAEvent) (eid : ℕ) :
    CAState → List (ℕ × ℚ) → Except String (ℕ × CAState)
  | s, [] => .ok (0, s)
  | s, (pid, shares) :: rest =>
    match ca_process_holder ev eid s pid shares with
    | .error e => .error e
    | .ok (inc, s1) =>
      match processHolders ev eid s1 rest with
      | .error e => .error e
      | .ok (n, s2) => .ok (inc + n, s2)

/-- `ca_process_event_activity`: idempotency cache, event checks, the
holder loop, the event status flip to `processed`, and the cached
response. -/
def ca_process_event_activity (st : CAState) (eid : ℕ) :
    Except String (Payload × CAState) :=
  let scope := "activity:ca_event:" ++ toString eid
  match get_idempotent_response st.idem scope "process" with
  | some cached => .ok (cached, st)
  | none =>
    match caEventLookup st.events eid with
    | none => .error "ca_event_not_found"
    | some ev =>
      if ev.lifecycle ≠ "active" then .error "ca_event_not_active"
      else if ev.status = "processed" ∨ ev.status = "cancelled" then
        let resp := [("ca_event_id", toString eid), ("status", ev.status)]
        .ok (resp, { st with
          idem := store_idempotent_response st.idem scope "process" resp })
      else
        match processHolders ev eid st
            (holdersOf st.positions ev.instrument_id) with
        | .error e => .error e
        | .ok (n, st2) =>
          let resp := [("ca_event_id", toString eid),
            ("status", "processed"), ("processed_portfolios", toString n)]
          .ok (resp, { st2 with
            events := caEventSetProcessed st2.events eid,
            idem := store_idempotent_response st2.idem scope "process" resp })

theorem posLookup_upsert_other (ps : PositionTable) (pid iid : ℕ) (q : ℚ)
    (pid2 iid2 : ℕ) (h : ¬((pid2, iid2) = (pid, iid))) :
    posLookup (posUpsert ps pid iid q) pid2 iid2
      = posLookup ps pid2 iid2 := by
  induction ps with
  | nil =>
    have hf : (((pid, iid) : ℕ × ℕ) == (pid2, iid2)) = false := by
      rw [beq_eq_false_iff_ne]
      exact fun hh => h hh.symm
    simp [posUpsert, posLookup, List.find?_cons, hf]
  | cons e rest ih =>
    by_cases hc : e.1 = (pid, iid)
    · have hf : (((pid, iid) : ℕ × ℕ) == (pid2, iid2)) = false := by
        rw [beq_eq_false_iff_ne]
        exact fun hh => h hh.symm
      simp only [posUpsert, if_pos hc]
      simp [posLookup, List.find?_cons, hf, hc]
    · simp only [posUpsert, if_neg hc]
      by_cases hm : e.1 = (pid2, iid2)
      · simp [posLookup, List.find?_cons, hm]
      · have hf : (e.1 == ((pid2, iid2) : ℕ × ℕ)) = false := by
          rw [beq_eq_false_iff_ne]
          exact hm
        simp only [posLookup, List.find?_cons, hf] at ih ⊢
        exact ih

theorem effectLookup_cons_other (r : CAEffectRow) (effs : List CAEffectRow)
    (eid pid2 : ℕ) (h : ¬(r.portfolio_id = pid2)) :
    effectLookup (r :: effs) eid pid2 = effectLookup effs eid pid2 := by
  have hf : (r.portfolio_id == pid2) = false := by
    rw [beq_eq_false_iff_ne]
    exact h
  simp [effectLookup, List.find?_cons, hf]

theorem effectLookup_update_other (effs : List CAEffectRow)
    (eid pid : ℕ) (c d : ℚ) (t : ℕ) (pid2 : ℕ) (h : ¬(pid2 = pid)) :
    effectLookup (effectUpdate effs eid pid c d t) eid pid2
      = effectLookup effs eid pid2 := by
  induction effs with
  | nil => rfl
  | cons r rest ih =>
    simp only [effectUpdate, List.map_cons]
    by_cases hr : (r.ca_event_id == eid && r.portfolio_id == pid) = true
    · have hrp : r.portfolio_id = pid := by
        rw [Bool.and_eq_true, beq_iff_eq, beq_iff_eq] at hr
        exact hr.2
      have hp2 : (r.portfolio_id == pid2) = false := by
        rw [beq_eq_false_iff_ne, hrp]
        exact fun hh => h hh.symm
      rw [if_pos hr]
      simp only [effectLookup, List.find?_cons] at ih ⊢
      simp only [hp2, Bool.and_false] at ih ⊢
      simpa [effectUpdate] using ih
    · rw [if_neg hr]
      by_cases hm : (r.ca_event_id == eid && r.portfolio_id == pid2) = true
      · simp [effectLookup, List.find?_cons, hm]
      · have hm' : (r.ca_event_id == eid && r.portfolio_id == pid2) = false :=
          by rw [Bool.eq_false_iff]; exact hm
        simp only [effectLookup, List.find?_cons, hm'] at ih ⊢
        simpa [effectUpdate] using ih

theorem get_or_create_spec (instrs : List InstrumentRow) (ni : ℕ)
    (ccy : String) (ci : ℕ) (instrs2 : List InstrumentRow) (ni2 : ℕ)
    (h : get_or_create_cash_instrument_id instrs ni ccy
      = (ci, instrs2, ni2)) :
    List.Sublist instrs instrs2
    ∧ ∃ row ∈ instrs2, row.id = ci ∧ row.instrument_type = "cash"
      ∧ row.security_id = "CASH_" ++ ccy := by
  simp only [get_or_create_cash_instrument_id] at h
  cases hf : instrs.find? (fun r =>
      r.instrument_type == "cash" && r.security_id == ("CASH_" ++ ccy)) with
  | some r =>
    simp only [hf, Prod.mk.injEq] at h
    obtain ⟨h1, h2, h3⟩ := h
    have hmem := List.mem_of_find?_eq_some hf
    have hpred := List.find?_some hf
    rw [Bool.and_eq_true, beq_iff_eq, beq_iff_eq] at hpred
    subst h2
    exact ⟨List.Sublist.refl _, r, hmem, h1, hpred.1, hpred.2⟩
  | none =>
    simp only [hf, Prod.mk.injEq] at h
    obtain ⟨h1, h2, h3⟩ := h
    subst h1
    subst h2
    refine ⟨List.sublist_append_left _ _, ?_⟩
    refine ⟨{
      id := ni, instrument_type := "cash",
      security_id := "CASH_" ++ ccy, currency := ccy }, ?_, rfl, rfl, rfl⟩
    exact List.mem_append_right _ (List.mem_singleton_self _)

theorem ca_process_holder_spec (ev : CAEvent) (eid : ℕ) (s : CAState)
    (pid : ℕ) (shares : ℚ) (inc : ℕ) (s1 : CAState)
    (htype : ev.ca_type = "cash_dividend")
    (hok : ca_process_holder ev eid s pid shares = .ok (inc, s1)) :
    (s1.rules = s.rules ∧ s1.elections = s.elections
      ∧ s1.portfolios = s.portfolios ∧ s1.idem = s.idem
      ∧ s1.events = s.events
      ∧ List.Sublist s.instruments s1.instruments)
    ∧ (∀ pid2, ¬(pid2 = pid) →
        effectLookup s1.effects eid pid2 = effectLookup s.effects eid pid2
        ∧ (∀ iid, posLookup s1.positions pid2 iid
            = posLookup s.positions pid2 iid)
        ∧ s1.entries.filter (fun en => en.portfolio_id == some pid2)
          = s.entries.filter (fun en => en.portfolio_id == some pid2))
    ∧ (ca_gate_passes s ev eid pid = false → s1 = s)
    ∧ ((effectLookup s.effects eid pid).isSome = true → s1 = s)
    ∧ (effectLookup s.effects eid pid = none →
        ca_gate_passes s ev eid pid = true →
        ∃ eff ci ccy,
          effectLookup s1.effects eid pid = some eff
          ∧ eff.cash_amount = shares * ev.cash_amount_per_share
          ∧ eff.acct_transaction_id.isSome = true
          ∧ (ev.currency = some ccy
              ∨ (ev.currency = none ∧ portLookup s.portfolios pid = some ccy))
          ∧ (∃ row ∈ s1.instruments, row.id = ci
              ∧ row.instrument_type = "cash"
              ∧ row.security_id = "CASH_" ++ ccy)
          ∧ posLookup s1.positions pid ci
            = some ((posLookup s.positions pid ci).getD 0
              + shares * ev.cash_amount_per_share)) := by
  simp only [ca_process_holder] at hok
  by_cases hg : ca_gate_passes s ev eid pid = false
  · rw [if_pos hg] at hok
    rw [Except.ok.injEq, Prod.mk.injEq] at hok
    obtain ⟨h1, h2⟩ := hok
    subst h2
    refine ⟨⟨rfl, rfl, rfl, rfl, rfl, List.Sublist.refl _⟩,
      fun pid2 _ => ⟨rfl, fun iid => rfl, rfl⟩,
      fun _ => rfl, fun _ => rfl, ?_⟩
    intro _ hgt
    rw [hgt] at hg
    exact absurd hg (by simp)
  · rw [if_neg hg] at hok
    by_cases hcl : (effectLookup s.effects eid pid).isSome = true
    · rw [if_pos hcl] at hok
      rw [Except.ok.injEq, Prod.mk.injEq] at hok
      obtain ⟨h1, h2⟩ := hok
      subst h2
      refine ⟨⟨rfl, rfl, rfl, rfl, rfl, List.Sublist.refl _⟩,
        fun pid2 _ => ⟨rfl, fun iid => rfl, rfl⟩,
        fun _ => rfl, fun _ => rfl, ?_⟩
      intro hn _
      rw [hn] at hcl
      simp at hcl
    · rw [if_neg hcl] at hok
      rw [if_pos htype] at hok
      cases hcur : ev.currency with
      | some c =>
        simp only [hcur] at hok
        cases hgoc : get_or_create_cash_instrument_id s.instruments
            s.next_instr_id c with
        | mk ci rest2 =>
          obtain ⟨instrs2, ni2⟩ := rest2
          simp only [hgoc] at hok
          rw [Except.ok.injEq, Prod.mk.injEq] at hok
          obtain ⟨h1, h2⟩ := hok
          subst h2
          obtain ⟨hsub, hrow⟩ := get_or_create_spec _ _ _ _ _ _ hgoc
          refine ⟨⟨rfl, rfl, rfl, rfl, rfl, hsub⟩, ?_, ?_, ?_, ?_⟩
          · intro pid2 hne
            refine ⟨?_, ?_, ?_⟩
            · show effectLookup (effectUpdate (({
                  ca_event_id := eid, portfolio_id := pid,
                  cash_amount := 0, share_delta := 0,
                  acct_transaction_id := none } : CAEffectRow) :: s.effects)
                  eid pid (shares * ev.cash_amount_per_share) 0
                  s.next_txn_id) eid pid2 = effectLookup s.effects eid pid2
              rw [effectLookup_update_other _ _ _ _ _ _ _ hne]
              exact effectLookup_cons_other _ _ _ _
                (fun hh => hne hh.symm)
            · intro iid
              exact posLookup_upsert_other _ _ _ _ _ _
                (fun hh => hne (congrArg Prod.fst hh))
            · have hf : ((some pid : Option ℕ) == some pid2) = false := by
                rw [beq_eq_false_iff_ne]
                intro hh
                exact hne (Option.some.inj hh).symm
              simp only [List.filter_cons, hf, Bool.false_eq_true, if_false]
          · intro hgf
            exact absurd hgf hg
          · intro hcs
            exact absurd hcs hcl
          · intro hn hgt
            refine ⟨⟨eid, pid, shares * ev.cash_amount_per_share, 0,
                some s.next_txn_id⟩, ci, c, ?_, rfl, rfl, Or.inl rfl,
              hrow, ?_⟩
            · simp [effectLookup, effectUpdate, List.find?_cons]
            · exact posLookup_upsert_self _ _ _ _

      | none =>
        simp only [hcur] at hok
        cases hport : portLookup s.portfolios pid with
        | none =>
          simp only [hport] at hok
          exact Except.noConfusion hok
        | some c =>
          simp only [hport] at hok
          cases hgoc : get_or_create_cash_instrument_id s.instruments
              s.next_instr_id c with
          | mk ci rest2 =>
            obtain ⟨instrs2, ni2⟩ := rest2
            simp only [hgoc] at hok
            rw [Except.ok.injEq, Prod.mk.injEq] at hok
            obtain ⟨h1, h2⟩ := hok
            subst h2
            obtain ⟨hsub, hrow⟩ := get_or_create_spec _ _ _ _ _ _ hgoc
            refine ⟨⟨rfl, rfl, rfl, rfl, rfl, hsub⟩, ?_, ?_, ?_, ?_⟩
            · intro pid2 hne
              refine ⟨?_, ?_, ?_⟩
              · show effectLookup (effectUpdate (({
                    ca_event_id := eid, portfolio_id := pid,
                    cash_amount := 0, share_delta := 0,
                    acct_transaction_id := none } : CAEffectRow) :: s.effects)
                    eid pid (shares * ev.cash_amount_per_share) 0
                    s.next_txn_id) eid pid2 = effectLookup s.effects eid pid2
                rw [effectLookup_update_other _ _ _ _ _ _ _ hne]
                exact effectLookup_cons_other _ _ _ _
                  (fun hh => hne hh.symm)
              · intro iid
                exact posLookup_upsert_other _ _ _ _ _ _
                  (fun hh => hne (congrArg Prod.fst hh))
              · have hf : ((some pid : Option ℕ) == some pid2) = false := by
                  rw [beq_eq_false_iff_ne]
                  intro hh
                  exact hne (Option.some.inj hh).symm
                simp only [List.filter_cons, hf, Bool.false_eq_true, if_false]
            · intro hgf
              exact absurd hgf hg
            · intro hcs
              exact absurd hcs hcl
            · intro hn hgt
              refine ⟨⟨eid, pid, shares * ev.cash_amount_per_share, 0,
                  some s.next_txn_id⟩, ci, c, ?_, rfl, rfl, Or.inr ⟨rfl, rfl⟩,
                hrow, ?_⟩
              · simp [effectLookup, effectUpdate, List.find?_cons]
              · exact posLookup_upsert_self _ _ _ _


theorem processHolders_spec (ev : CAEvent) (eid : ℕ)
    (htype : ev.ca_type = "cash_dividend") :
    ∀ (hl : List (ℕ × ℚ)) (s : CAState) (n : ℕ) (s2 : CAState),
    (hl.map Prod.fst).Nodup →
    processHolders ev eid s hl = .ok (n, s2) →
    (s2.rules = s.rules ∧ s2.elections = s.elections
      ∧ s2.portfolios = s.portfolios ∧ s2.idem = s.idem
      ∧ s2.events = s.events
      ∧ List.Sublist s.instruments s2.instruments)
    ∧ (∀ pid2, pid2 ∉ hl.map Prod.fst →
        effectLookup s2.effects eid pid2 = effectLookup s.effects eid pid2
        ∧ (∀ iid, posLookup s2.positions pid2 iid
            = posLookup s.positions pid2 iid)
        ∧ s2.entries.filter (fun en => en.portfolio_id == some pid2)
          = s.entries.filter (fun en => en.portfolio_id == some pid2))
    ∧ (∀ pid shares, (pid, shares) ∈ hl →
        (effectLookup s.effects eid pid = none →
          ca_gate_passes s ev eid pid = true →
          ∃ eff ci ccy,
            effectLookup s2.effects eid pid = some eff
            ∧ eff.cash_amount = shares * ev.cash_amount_per_share
            ∧ eff.acct_transaction_id.isSome = true
            ∧ (ev.currency = some ccy
                ∨ (ev.currency = none
                  ∧ portLookup s.portfolios pid = some ccy))
            ∧ (∃ row ∈ s2.instruments, row.id = ci
                ∧ row.instrument_type = "cash"
                ∧ row.security_id = "CASH_" ++ ccy)
            ∧ posLookup s2.positions pid ci
              = some ((posLookup s.positions pid ci).getD 0
                + shares * ev.cash_amount_per_share))
        ∧ ((effectLookup s.effects eid pid).isSome = true →
          effectLookup s2.effects eid pid = effectLookup s.effects eid pid
          ∧ (∀ iid, posLookup s2.positions pid iid
              = posLookup s.positions pid iid)
          ∧ s2.entries.filter (fun en => en.portfolio_id == some pid)
            = s.entries.filter (fun en => en.portfolio_id == some pid))) := by
  intro hl
  induction hl with
  | nil =>
    intro s n s2 hnd hok
    simp only [processHolders, Except.ok.injEq, Prod.mk.injEq] at hok
    obtain ⟨h1, h2⟩ := hok
    subst h2
    exact ⟨⟨rfl, rfl, rfl, rfl, rfl, List.Sublist.refl _⟩,
      fun pid2 _ => ⟨rfl, fun iid => rfl, rfl⟩,
      fun pid shares hmem => absurd hmem (List.not_mem_nil _)⟩
  | cons hd rest ih =>
    obtain ⟨pid, shares⟩ := hd
    intro s n s2 hnd hok
    simp only [processHolders] at hok
    cases hstep : ca_process_holder ev eid s pid shares with
    | error e =>
      simp only [hstep] at hok
      exact Except.noConfusion hok
    | ok pr =>
      obtain ⟨inc, s1⟩ := pr
      simp only [hstep] at hok
      cases hrec : processHolders ev eid s1 rest with
      | error e =>
        simp only [hrec] at hok
        exact Except.noConfusion hok
      | ok pr2 =>
        obtain ⟨m, s2p⟩ := pr2
        simp only [hrec, Except.ok.injEq, Prod.mk.injEq] at hok
        obtain ⟨h1, h2⟩ := hok
        subst h2
        rw [List.map_cons, List.nodup_cons] at hnd
        obtain ⟨hpid_notin, hnd_rest⟩ := hnd
        obtain ⟨Sfr, Sun, Sgf, Scl, Spr⟩ :=
          ca_process_holder_spec ev eid s pid shares inc s1 htype hstep
        obtain ⟨Srules, Selecs, Sports, Sidem, Sevents, Ssub⟩ := Sfr
        obtain ⟨Rfr, Run, Rh⟩ := ih s1 m s2p hnd_rest hrec
        obtain ⟨Rrules, Relecs, Rports, Ridem, Revents, Rsub⟩ := Rfr
        have hgate_eq : ∀ pid2, ca_gate_passes s1 ev eid pid2
            = ca_gate_passes s ev eid pid2 := by
          intro pid2
          simp only [ca_gate_passes, ca_required_election, Srules, Selecs]
        refine ⟨⟨?_, ?_, ?_, ?_, ?_, ?_⟩, ?_, ?_⟩
        · rw [Rrules, Srules]
        · rw [Relecs, Selecs]
        · rw [Rports, Sports]
        · rw [Ridem, Sidem]
        · rw [Revents, Sevents]
        · exact Ssub.trans Rsub
        · intro pid2 hnotin
          have hn1 : ¬(pid2 = pid) := by
            intro hh
            exact hnotin (by rw [List.map_cons]; exact hh ▸ List.mem_cons_self _ _)
          have hn2 : pid2 ∉ rest.map Prod.fst := by
            intro hh
            exact hnotin (by rw [List.map_cons]; exact List.mem_cons_of_mem _ hh)
          obtain ⟨Se, Sp, Sen⟩ := Sun pid2 hn1
          obtain ⟨Re, Rp, Ren⟩ := Run pid2 hn2
          exact ⟨by rw [Re, Se], fun iid => by rw [Rp iid, Sp iid],
            by rw [Ren, Sen]⟩
        · intro pidq sharesq hmem
          rw [List.mem_cons] at hmem
          rcases hmem with hmem | hmem
          · rw [Prod.mk.injEq] at hmem
            obtain ⟨hp, hs⟩ := hmem
            subst hp
            subst hs
            constructor
            · intro hn hgt
              obtain ⟨eff, ci, ccy, He, Hc, Ht, Hccy, Hrow, Hpos⟩ :=
                Spr hn hgt
              obtain ⟨Re, Rp, Ren⟩ := Run pidq hpid_notin
              refine ⟨eff, ci, ccy, ?_, Hc, Ht, Hccy, ?_, ?_⟩
              · rw [Re, He]
              · obtain ⟨row, hrm, hrest⟩ := Hrow
                exact ⟨row, Rsub.subset hrm, hrest⟩
              · rw [Rp ci, Hpos]
            · intro hcs
              have hs1 : s1 = s := Scl hcs
              subst hs1
              exact Run pidq hpid_notin
          · have hmmap : pidq ∈ rest.map Prod.fst :=
              List.mem_map.mpr ⟨(pidq, sharesq), hmem, rfl⟩
            have hpne : ¬(pidq = pid) := by
              intro hh
              exact hpid_notin (hh ▸ hmmap)
            obtain ⟨Se, Sp, Sen⟩ := Sun pidq hpne
            have hR := Rh pidq sharesq hmem
            constructor
            · intro hn hgt
              have hn1 : effectLookup s1.effects eid pidq = none := by
                rw [Se]; exact hn
              have hgt1 : ca_gate_passes s1 ev eid pidq = true := by
                rw [hgate_eq pidq]; exact hgt
              obtain ⟨eff, ci, ccy, He, Hc, Ht, Hccy, Hrow, Hpos⟩ :=
                hR.1 hn1 hgt1
              refine ⟨eff, ci, ccy, He, Hc, Ht, ?_, Hrow, ?_⟩
              · rcases Hccy with h | hpair
                · exact Or.inl h
                · obtain ⟨hnone, hport⟩ := hpair
                  rw [Sports] at hport
                  exact Or.inr ⟨hnone, hport⟩
              · rw [Hpos, Sp ci]
            · intro hcs
              have hcs1 : (effectLookup s1.effects eid pidq).isSome = true := by
                rw [Se]; exact hcs
              obtain ⟨Re, Rp, Ren⟩ := hR.2 hcs1
              exact ⟨by rw [Re, Se], fun iid => by rw [Rp iid, Sp iid],
                by rw [Ren, Sen]⟩

/-- C9: for a cash-dividend corporate action, every holding portfolio that
passes the election gate and has no prior `(ca_event_id, portfolio_id)`
`ca_effect` row is credited exactly `shares × cash_amount_per_share` on its
cash position (in the event currency, falling back to the portfolio report
currency, with the cash instrument auto-provisioned); a holder whose effect
row already exists is skipped with no position or journal change; and
repeating the activity after a successful run returns the cached response
with the state unchanged. -/
theorem claim_C9_cash_dividend_at_most_once
    (st : CAState) (eid : ℕ) (ev : CAEvent) (resp : Payload) (st1 : CAState)
    (hev : caEventLookup st.events eid = some ev)
    (htype : ev.ca_type = "cash_dividend")
    (hnd : ((holdersOf st.positions ev.instrument_id).map Prod.fst).Nodup)
    (hok : ca_process_event_activity st eid = .ok (resp, st1)) :
    ca_process_event_activity st1 eid = .ok (resp, st1)
    ∧ (get_idempotent_response st.idem
        ("activity:ca_event:" ++ toString eid) "process" = none →
      ev.status ≠ "processed" → ev.status ≠ "cancelled" →
      ∀ pid shares, (pid, shares) ∈ holdersOf st.positions ev.instrument_id →
        (effectLookup st.effects eid pid = none →
          ca_gate_passes st ev eid pid = true →
          ∃ eff ci ccy,
            effectLookup st1.effects eid pid = some eff
            ∧ eff.cash_amount = shares * ev.cash_amount_per_share
            ∧ eff.acct_transaction_id.isSome = true
            ∧ (ev.currency = some ccy
                ∨ (ev.currency = none
                  ∧ portLookup st.portfolios pid = some ccy))
            ∧ (∃ row ∈ st1.instruments, row.id = ci
                ∧ row.instrument_type = "cash"
                ∧ row.security_id = "CASH_" ++ ccy)
            ∧ posLookup st1.positions pid ci
              = some ((posLookup st.positions pid ci).getD 0
                + shares * ev.cash_amount_per_share))
        ∧ ((effectLookup st.effects eid pid).isSome = true →
          effectLookup st1.effects eid pid = effectLookup st.effects eid pid
          ∧ (∀ iid, posLookup st1.positions pid iid
              = posLookup st.positions pid iid)
          ∧ st1.entries.filter (fun en => en.portfolio_id == some pid)
            = st.entries.filter (fun en => en.portfolio_id == some pid))) := by
  simp only [ca_process_event_activity] at hok
  cases hcache : get_idempotent_response st.idem
      ("activity:ca_event:" ++ toString eid) "process" with
  | some cached =>
    simp only [hcache] at hok
    rw [Except.ok.injEq, Prod.mk.injEq] at hok
    obtain ⟨h1, h2⟩ := hok
    subst h1
    subst h2
    constructor
    · simp only [ca_process_event_activity, hcache]
    · intro hnc
      exact Option.noConfusion hnc
  | none =>
    simp only [hcache, hev] at hok
    by_cases hla : ev.lifecycle = "active"
    · rw [if_neg (show ¬(ev.lifecycle ≠ "active") from
        fun hh => hh hla)] at hok
      by_cases hstat : ev.status = "processed" ∨ ev.status = "cancelled"
      · rw [if_pos hstat] at hok
        rw [Except.ok.injEq, Prod.mk.injEq] at hok
        obtain ⟨h1, h2⟩ := hok
        subst h1
        subst h2
        constructor
        · simp only [ca_process_event_activity, get_store_self]
        · intro _ h1p h2p
          rcases hstat with hs | hs
          · exact absurd hs h1p
          · exact absurd hs h2p
      · rw [if_neg hstat] at hok
        cases hph : processHolders ev eid st
            (holdersOf st.positions ev.instrument_id) with
        | error e =>
          simp only [hph] at hok
          exact Except.noConfusion hok
        | ok pr =>
          obtain ⟨n, st2⟩ := pr
          simp only [hph] at hok
          rw [Except.ok.injEq, Prod.mk.injEq] at hok
          obtain ⟨h1, h2⟩ := hok
          subst h1
          subst h2
          obtain ⟨Pfr, Pun, Ph⟩ :=
            processHolders_spec ev eid htype _ st n st2 hnd hph
          constructor
          · simp only [ca_process_event_activity, get_store_self]
          · intro _ _ _ pid shares hmem
            have hh := Ph pid shares hmem
            constructor
            · intro hn hgt
              obtain ⟨eff, ci, ccy, He, Hc, Ht, Hccy, Hrow, Hpos⟩ :=
                hh.1 hn hgt
              exact ⟨eff, ci, ccy, He, Hc, Ht, Hccy, Hrow, Hpos⟩
            · intro hcs
              exact hh.2 hcs
    · rw [if_pos hla] at hok
      exact Except.noConfusion hok

def W9ev : CAEvent :=
  { id := 1, ca_type := "cash_dividend", instrument_id := 5,
    require_election := false, cash_amount_per_share := 1,
    split_numerator := 1, split_denominator := 1, currency := some "USD",
    ex_date := 2, pay_date := some 5, status := "pending",
    lifecycle := "active" }

def W9st : CAState :=
  { events := [W9ev], positions := [((3, 5), 10)], instruments := [],
    portfolios := [(3, "USD")], rules := [], elections := [], effects := [],
    transactions := [], entries := [], idem := [], next_txn_id := 1,
    next_instr_id := 20 }

/-- Witness for C9: portfolio 3 holds 10 shares; a `cash_dividend` of 1 USD
per share credits its USD cash position by exactly 10, and replaying the
activity is a no-op. -/
theorem claim_C9_cash_dividend_at_most_once_witness :
    ∃ resp st1,
      ca_process_event_activity W9st 1 = .ok (resp, st1)
      ∧ ca_process_event_activity st1 1 = .ok (resp, st1)
      ∧ ∃ eff ci ccy,
          effectLookup st1.effects 1 3 = some eff
          ∧ eff.cash_amount = 10 * (1 : ℚ)
          ∧ (∃ row ∈ st1.instruments, row.id = ci
              ∧ row.instrument_type = "cash"
              ∧ row.security_id = "CASH_" ++ ccy)
          ∧ posLookup st1.positions 3 ci
            = some ((posLookup W9st.positions 3 ci).getD 0
              + 10 * (1 : ℚ)) := by
  have hc : ca_process_event_activity W9st 1 = .ok
    ([("ca_event_id", "1"), ("status", "processed"),
      ("processed_portfolios", "1")],
     { events := [{ W9ev with status := "processed" }],
       positions := [((3, 5), 10), ((3, 20), 10)],
       instruments := [{
         id := 20, instrument_type := "cash",
         security_id := "CASH_USD", currency := "USD" }],
       portfolios := [(3, "USD")], rules := [], elections := [],
       effects := [{
         ca_event_id := 1, portfolio_id := 3, cash_amount := 10,
         share_delta := 0, acct_transaction_id := some 1 }],
       transactions := [{
         id := 1, staging_id := none, deal_block_id := none,
         deal_allocation_id := none, effective_date := 5,
         description := "ca:cash_dividend", trade_type := "BUY",
         entry_role := "normal", reversal_of_id := none,
         replacement_of_id := none }],
       entries := [
         { acct_transaction_id := 1, portfolio_id := some 3,
           instrument_id := 20, account_code := "CASH", drcr := "DR",
           quantity := some 10, amount := 10, currency := "USD" },
         { acct_transaction_id := 1, portfolio_id := some 3,
           instrument_id := 5, account_code := "DIVIDEND_INCOME",
           drcr := "CR", quantity := none, amount := 10,
           currency := "USD" }],
       idem := [(⟨"activity:ca_event:1", "process"⟩,
         some [("ca_event_id", "1"), ("status", "processed"),
           ("processed_portfolios", "1")])],
       next_txn_id := 2, next_instr_id := 21 }) := by
    norm_num [ca_process_event_activity, get_idempotent_response, caEventLookup,
      List.find?, processHolders, ca_process_holder, ca_gate_passes,
      ca_required_election, ruleLookup, electionLookup, effectLookup,
      effectUpdate, holdersOf, List.filter, get_or_create_cash_instrument_id,
      posUpsert, portLookup, caEventSetProcessed, store_idempotent_response,
      W9ev, W9st]
    rw [if_neg (show ¬("pending" = "processed" ∨ "pending" = "cancelled") by
      decide)]
    rfl
  have H := claim_C9_cash_dividend_at_most_once W9st 1 W9ev _ _
    rfl rfl (by decide) hc
  have hper := H.2 rfl (by decide) (by decide) 3 10 (by decide)
  obtain ⟨eff, ci, ccy, He, Hc2, Ht, Hccy, Hrow, Hpos⟩ :=
    hper.1 rfl (by decide)
  exact ⟨_, _, hc, H.1, eff, ci, ccy, He, Hc2, Hrow, Hpos⟩

end Polaris
